import Mathlib

/-
Verification development for the yawmak todo manager.

The program stores tasks in a DuckDB database with five tables
(todos, categories, tags, todo_categories, todo_tags) and three id
sequences.  Every operation of `src/database.rs` is a short sequence of
SQL statements; below each operation is embedded as a pure function on
an explicit database state.  Machine dates (SQL DATE values) are
modelled as `Int` day numbers, `CURRENT_DATE` becomes an explicit
`today` argument, and fallible operations return `Except TodoError`.
-/

namespace Yawmak

/-- Row of the `todos` table: columns id, task, done, due_date,
completion_date, priority (schema in `Database::new`). -/
structure TodoRow where
  id : Int
  task : String
  done : Bool
  due_date : Option Int
  completion_date : Option Int
  priority : Int
deriving Repr, DecidableEq

/-- Row of the `categories` or `tags` table: columns id, name. -/
structure NameRow where
  id : Int
  name : String
deriving Repr, DecidableEq

/-- The whole database: the five tables plus the three sequences
(`todo_id_seq`, `category_id_seq`, `tag_id_seq`). -/
structure DBState where
  todos : List TodoRow
  categories : List NameRow
  tags : List NameRow
  todo_categories : List (Int × Int)
  todo_tags : List (Int × Int)
  todo_seq : Int
  category_seq : Int
  tag_seq : Int
deriving Repr, DecidableEq

/-- The error type of `src/error.rs` (payloads reduced to the rendered
message strings). -/
inductive TodoError where
  | DuckDB : String → TodoError
  | Io : String → TodoError
  | Custom : String → TodoError
deriving Repr, DecidableEq

/-- The in-memory task record of `src/task.rs`. -/
structure Task where
  id : Int
  name : String
  category : Option String
  tags : List String
  done : Bool
  due_date : Option Int
  completion_date : Option Int
  priority : Int
deriving Repr, DecidableEq

/-- `Database::new` on a fresh file: empty tables, sequences at 1. -/
def Database_new : DBState :=
  { todos := [], categories := [], tags := [],
    todo_categories := [], todo_tags := [],
    todo_seq := 1, category_seq := 1, tag_seq := 1 }

/-- Effect of `INSERT OR IGNORE INTO categories (name) VALUES (?1)`:
insert a fresh row unless the UNIQUE name already exists. -/
def addCatState (s : DBState) (name : String) : DBState :=
  if s.categories.any (fun c => c.name = name) then s
  else { s with
    categories := s.categories ++ [⟨s.category_seq, name⟩],
    category_seq := s.category_seq + 1 }

/-- `Database::add_category`: INSERT OR IGNORE, then a COUNT check that
reports "Category already exists." if no row with the name is found. -/
def add_category (s : DBState) (name : String) : Except TodoError DBState :=
  let s1 := addCatState s name
  if ((s1.categories.filter (fun c => c.name = name)).length = 0) then
    Except.error (TodoError.Custom "Category already exists.")
  else Except.ok s1

/-- Effect of `INSERT OR IGNORE INTO tags (name) VALUES (?1)`. -/
def addTagState (s : DBState) (name : String) : DBState :=
  if s.tags.any (fun c => c.name = name) then s
  else { s with
    tags := s.tags ++ [⟨s.tag_seq, name⟩],
    tag_seq := s.tag_seq + 1 }

/-- `Database::add_tag`: INSERT OR IGNORE, then a COUNT check that
reports "Tag already exists." if no row with the name is found. -/
def add_tag (s : DBState) (name : String) : Except TodoError DBState :=
  let s1 := addTagState s name
  if ((s1.tags.filter (fun c => c.name = name)).length = 0) then
    Except.error (TodoError.Custom "Tag already exists.")
  else Except.ok s1

/-- `Database::get_category_id`: `SELECT id FROM categories WHERE name
= ?1` via `query_row` (first matching row, error when none). -/
def get_category_id (s : DBState) (name : String) : Except TodoError Int :=
  match s.categories.find? (fun c => c.name = name) with
  | some c => Except.ok c.id
  | none => Except.error (TodoError.DuckDB "query returned no rows")

/-- `Database::get_tag_id`: `SELECT id FROM tags WHERE name = ?1`. -/
def get_tag_id (s : DBState) (name : String) : Except TodoError Int :=
  match s.tags.find? (fun c => c.name = name) with
  | some c => Except.ok c.id
  | none => Except.error (TodoError.DuckDB "query returned no rows")

/-- The tag loop shared by `add_task` and `update_task`: for each name,
`add_tag`, look its id up, and insert a `todo_tags` junction row. -/
def attachTags : DBState → Int → List String → Except TodoError DBState
  | s, _, [] => Except.ok s
  | s, d, tag :: rest =>
    match add_tag s tag with
    | Except.error e => Except.error e
    | Except.ok s1 =>
      match get_tag_id s1 tag with
      | Except.error e => Except.error e
      | Except.ok tid =>
        attachTags { s1 with todo_tags := s1.todo_tags ++ [(d, tid)] } d rest

/-- The category block of `Database::add_task`: when the task carries a
category, create it if missing, look up its id and insert the junction
pair for the new todo id. -/
def addTaskCategory (s : DBState) (newId : Int) (category : Option String) :
    Except TodoError DBState :=
  match category with
  | some category =>
    match add_category s category with
    | Except.error e => Except.error e
    | Except.ok s2 =>
      match get_category_id s2 category with
      | Except.error e => Except.error e
      | Except.ok cid =>
        Except.ok { s2 with todo_categories := s2.todo_categories ++ [(newId, cid)] }
  | none => Except.ok s

/-- `Database::add_task`: `INSERT INTO todos (task, due_date, priority)
VALUES (?1, ?2, ?3) RETURNING id` (id from the sequence, done/completion
defaulting to false/NULL; a duplicate default id is a constraint error),
then attach the category (created if missing) and each tag. -/
def add_task (s : DBState) (t : Task) : Except TodoError DBState :=
  let newId := s.todo_seq
  if s.todos.any (fun r => r.id = newId) then
    Except.error (TodoError.DuckDB "Constraint Error: duplicate key")
  else
    let s1 : DBState := { s with
      todos := s.todos ++ [⟨newId, t.name, false, t.due_date, none, t.priority⟩],
      todo_seq := newId + 1 }
    match addTaskCategory s1 newId t.category with
    | Except.error e => Except.error e
    | Except.ok s2 => attachTags s2 newId t.tags

/-- `Database::get_task_category`: first row of the categories join for
the given todo id, if any (`query_row(..).optional()`). -/
def get_task_category (s : DBState) (task_id : Int) : Option String :=
  ((s.todo_categories.filter (fun p => p.1 = task_id)).filterMap
    (fun p => (s.categories.find? (fun c => c.id = p.2)).map NameRow.name)).head?

/-- `Database::get_task_tags`: all rows of the tags join for the given
todo id, in junction-table order. -/
def get_task_tags (s : DBState) (task_id : Int) : List String :=
  (s.todo_tags.filter (fun p => p.1 = task_id)).filterMap
    (fun p => (s.tags.find? (fun c => c.id = p.2)).map NameRow.name)

/-- Row-to-Task conversion inside `Database::get_tasks`. -/
def rowToTask (s : DBState) (r : TodoRow) : Task :=
  { id := r.id, name := r.task,
    category := get_task_category s r.id,
    tags := get_task_tags s r.id,
    done := r.done, due_date := r.due_date,
    completion_date := r.completion_date, priority := r.priority }

/-- `Database::get_tasks`: select todos rows (optionally filtered on
done), joining each with its category and tags. -/
def get_tasks (s : DBState) (done_only : Option Bool) : List Task :=
  let rows := match done_only with
    | some true => s.todos.filter (fun (r : TodoRow) => r.done)
    | some false => s.todos.filter (fun (r : TodoRow) => !r.done)
    | none => s.todos
  rows.map (rowToTask s)

/-- `Database::mark_task_done`: `UPDATE todos SET done = 1,
completion_date = CURRENT_DATE WHERE id = ?1`; `CURRENT_DATE` is the
explicit `today` argument. -/
def mark_task_done (s : DBState) (id : Int) (today : Int) : DBState :=
  { s with todos := s.todos.map (fun r =>
      if r.id = id then { r with done := true, completion_date := some today } else r) }

/-- The single-quote character of SQL string literals. -/
def sq : Char := Char.ofNat 39

/-- One-character string holding the single quote. -/
def sqStr : String := String.mk [sq]

/-- SQL literal values occurring in the UPDATE statements this program
can generate, including through the string interpolation of
`update_task` (database.rs lines 322-326). -/
inductive SqlVal where
  | str : String → SqlVal
  | int : Int → SqlVal
  | null : SqlVal
deriving Repr, DecidableEq

/-- Strip a SQL `--` line comment: scan left to right tracking whether
the position lies inside a single-quoted literal; a `--` outside a
literal drops the rest of the statement text. -/
def stripComment : List Char → Bool → List Char
  | [], _ => []
  | c :: rest, inStr =>
    if c = sq then c :: stripComment rest (!inStr)
    else if !inStr && c = '-' && rest.head? = some '-' then []
    else c :: stripComment rest inStr

/-- Drop trailing spaces of the statement text. -/
def trimRightSpaces (xs : List Char) : List Char :=
  (xs.reverse.dropWhile (fun c => c = ' ')).reverse

/-- Consume an expected token, returning the remainder. -/
def dropToken : List Char → List Char → Option (List Char)
  | [], xs => some xs
  | _ :: _, [] => none
  | t :: ts, x :: xs => if x = t then dropToken ts xs else none

/-- Parse the body of a single-quoted SQL string literal (with the
doubled-quote escape) up to and past its closing quote. -/
def parseStringBody : List Char → Option (List Char × List Char)
  | [] => none
  | c :: rest =>
    if c = sq then
      match rest with
      | c2 :: rest2 =>
        if c2 = sq then
          match parseStringBody rest2 with
          | some (v, r) => some (sq :: v, r)
          | none => none
        else some ([], rest)
      | [] => some ([], [])
    else
      match parseStringBody rest with
      | some (v, r) => some (c :: v, r)
      | none => none

/-- Parse a nonempty run of decimal digits. -/
def parseDigitsLit (xs : List Char) : Option (Nat × List Char) :=
  let ds := xs.takeWhile (fun c => c.isDigit)
  if ds.isEmpty then none
  else some (ds.foldl (fun a c => a * 10 + (c.toNat - 48)) 0, xs.drop ds.length)

/-- Parse a column identifier (letters and underscores). -/
def parseIdent (xs : List Char) : Option (String × List Char) :=
  let ds := xs.takeWhile (fun c => c.isAlpha || c = '_')
  if ds.isEmpty then none
  else some (String.mk ds, xs.drop ds.length)

/-- Parse a SQL value: quoted string, integer, or NULL. -/
def parseVal : List Char → Option (SqlVal × List Char)
  | [] => none
  | c :: rest =>
    if c = sq then
      match parseStringBody rest with
      | some (body, r) => some (SqlVal.str (String.mk body), r)
      | none => none
    else if c = '-' then
      match parseDigitsLit rest with
      | some (n, r) => some (SqlVal.int (-(n : Int)), r)
      | none => none
    else if c.isDigit then
      match parseDigitsLit (c :: rest) with
      | some (n, r) => some (SqlVal.int (n : Int), r)
      | none => none
    else
      match dropToken ("NULL").data (c :: rest) with
      | some r => some (SqlVal.null, r)
      | none => none

/-- Parse one `column = value` SET clause. -/
def parseClause (xs : List Char) : Option ((String × SqlVal) × List Char) :=
  match parseIdent xs with
  | none => none
  | some (col, r1) =>
    match dropToken (" = ").data r1 with
    | none => none
    | some r2 =>
      match parseVal r2 with
      | none => none
      | some (v, r3) => some ((col, v), r3)

/-- Parse a comma-separated SET clause list.  The recursion is fuelled
with 8: an UPDATE on todos with more than five SET clauses necessarily
assigns some column twice and is rejected by the duplicate check below
anyway, so the fuel never rejects a statement the engine would accept
in this grammar. -/
def parseClausesF : Nat → List Char → Option (List (String × SqlVal) × List Char)
  | 0, _ => none
  | Nat.succ fuel, xs =>
    match parseClause xs with
    | none => none
    | some (cl, rest) =>
      match dropToken (", ").data rest with
      | some rest2 =>
        match parseClausesF fuel rest2 with
        | some (cls, rest3) => some (cl :: cls, rest3)
        | none => none
      | none => some ([cl], rest)

/-- Fixed-width digit reader for date components. -/
def readDigits : Nat → Nat → List Char → Option (Nat × List Char)
  | 0, acc, xs => some (acc, xs)
  | Nat.succ k, acc, c :: xs =>
    if c.isDigit then readDigits k (acc * 10 + (c.toNat - 48)) xs else none
  | Nat.succ _, _, [] => none

/-- Gregorian leap year. -/
def isLeapYear (y : Int) : Bool := (y % 4 = 0 && !(y % 100 = 0)) || y % 400 = 0

/-- Days in a month of the Gregorian calendar. -/
def daysInMonth (y m : Int) : Int :=
  if m = 2 then (if isLeapYear y then 29 else 28)
  else if m = 4 || m = 6 || m = 9 || m = 11 then 30
  else 31

/-- Days since 1970-01-01 of a civil date, the DATE value the engine
stores (standard era-based day count). -/
def daysFromCivil (y m d : Int) : Int :=
  let yy := if m ≤ 2 then y - 1 else y
  let era := (if 0 ≤ yy then yy else yy - 399) / 400
  let yoe := yy - era * 400
  let doy := (153 * ((m + 9) % 12) + 2) / 5 + d - 1
  let doe := yoe * 365 + yoe / 4 - yoe / 100 + doy
  era * 146097 + doe - 719468

/-- Cast of a string literal to DATE: strict YYYY-MM-DD with a validity
check; anything else fails the cast. -/
def parseDate (v : String) : Option Int :=
  match readDigits 4 0 v.data with
  | some (y, c1 :: rest1) =>
    if c1 = '-' then
      match readDigits 2 0 rest1 with
      | some (m, c2 :: rest2) =>
        if c2 = '-' then
          match readDigits 2 0 rest2 with
          | some (d, []) =>
            if 1 ≤ m && m ≤ 12 && 1 ≤ d &&
                (d : Int) ≤ daysInMonth (y : Int) (m : Int) then
              some (daysFromCivil (y : Int) (m : Int) (d : Int))
            else none
          | _ => none
        else none
      | _ => none
    else none
  | _ => none

/-- Apply one SET clause to a row; a column outside the todos schema or
an uncastable value is a statement error. -/
def applyClause (r : TodoRow) : String × SqlVal → Option TodoRow
  | ("task", SqlVal.str v) => some { r with task := v }
  | ("done", SqlVal.int n) =>
    if n = 0 then some { r with done := false }
    else if n = 1 then some { r with done := true }
    else none
  | ("due_date", SqlVal.str v) =>
    (parseDate v).map (fun dv => { r with due_date := some dv })
  | ("due_date", SqlVal.null) => some { r with due_date := none }
  | ("completion_date", SqlVal.str v) =>
    (parseDate v).map (fun dv => { r with completion_date := some dv })
  | ("completion_date", SqlVal.null) => some { r with completion_date := none }
  | ("priority", SqlVal.int n) => some { r with priority := n }
  | _ => none

/-- Apply a SET clause list to one row, left to right. -/
def applyClauses (cls : List (String × SqlVal)) (r : TodoRow) : Option TodoRow :=
  cls.foldl (fun acc cl => acc.bind (fun row => applyClause row cl)) (some r)

/-- Apply the clauses to every row matched by the condition; a failure
on any matched row fails the whole statement. -/
def applyToRows (cls : List (String × SqlVal)) (cond : TodoRow → Bool) :
    List TodoRow → Option (List TodoRow)
  | [] => some []
  | r :: rest =>
    match (if cond r then applyClauses cls r else some r),
        applyToRows cls cond rest with
    | some r2, some l2 => some (r2 :: l2)
    | _, _ => none

/-- Execute the interpolated UPDATE text `update_task` builds against
the todos table: strip a line comment, require the `UPDATE todos SET `
header, parse the SET clauses, reject duplicate column assignments, and
apply the clauses to the rows matched by the `WHERE id = ?1` bound to
the id parameter - or to every row when an injected comment swallowed
the WHERE clause.  Statements outside this single-table UPDATE grammar
are modelled as engine errors. -/
def runUpdateSql (sql : String) (bound : Int) (todos : List TodoRow) :
    Except TodoError (List TodoRow) :=
  let cs := trimRightSpaces (stripComment sql.data false)
  match dropToken ("UPDATE todos SET ").data cs with
  | none => Except.error (TodoError.DuckDB "Parser Error: syntax error")
  | some rest =>
    match parseClausesF 8 rest with
    | none => Except.error (TodoError.DuckDB "Parser Error: syntax error")
    | some (cls, rest2) =>
      if (cls.map Prod.fst).Nodup then
        if rest2 = [] then
          match applyToRows cls (fun _ => true) todos with
          | some l => Except.ok l
          | none => Except.error (TodoError.DuckDB "Conversion Error")
        else
          match dropToken (" WHERE id = ?1").data rest2 with
          | some [] =>
            match applyToRows cls (fun r => r.id = bound) todos with
            | some l => Except.ok l
            | none => Except.error (TodoError.DuckDB "Conversion Error")
          | _ => Except.error (TodoError.DuckDB "Parser Error: syntax error")
      else Except.error (TodoError.DuckDB "Binder Error: duplicate assignment")

/-- Decimal digit character. -/
def digitChar (n : Nat) : Char :=
  if n = 0 then Char.ofNat 48 else if n = 1 then Char.ofNat 49
  else if n = 2 then Char.ofNat 50 else if n = 3 then Char.ofNat 51
  else if n = 4 then Char.ofNat 52 else if n = 5 then Char.ofNat 53
  else if n = 6 then Char.ofNat 54 else if n = 7 then Char.ofNat 55
  else if n = 8 then Char.ofNat 56 else Char.ofNat 57

/-- Decimal digits of a natural number, most significant first. -/
def natDigitsAux (n : Nat) (acc : List Char) : List Char :=
  if h : n < 10 then digitChar n :: acc
  else natDigitsAux (n / 10) (digitChar (n % 10) :: acc)
termination_by n
decreasing_by
  exact Nat.div_lt_self (by omega) (by omega)

/-- Decimal rendering of an integer, as Rust format! prints an i32. -/
def formatInt (n : Int) : String :=
  if n < 0 then String.mk ('-' :: natDigitsAux n.natAbs [])
  else String.mk (natDigitsAux n.natAbs [])

/-- Rust Vec::join with a separator. -/
def joinComma : List String → String
  | [] => ""
  | [x] => x
  | x :: y :: rest => x ++ ", " ++ joinComma (y :: rest)

/-- The SET clause texts `update_task` pushes, built by string
interpolation exactly as the source does (database.rs lines 320-334):
the supplied task and due-date strings are spliced between quotes with
no escaping. -/
def updateClauses (new_task : Option String) (new_due_date : Option String)
    (new_priority : Option Int) (mark_undone : Bool) : List String :=
  let updates : List String := []
  let updates := match new_task with
    | some task => updates ++ ["task = " ++ sqStr ++ task ++ sqStr]
    | none => updates
  let updates := match new_due_date with
    | some due_date => updates ++ ["due_date = " ++ sqStr ++ due_date ++ sqStr]
    | none => updates
  let updates := match new_priority with
    | some priority => updates ++ ["priority = " ++ formatInt priority]
    | none => updates
  if mark_undone then updates ++ ["done = 0", "completion_date = NULL"]
  else updates

/-- The todos UPDATE of `update_task`: build the interpolated statement
and execute it when at least one SET clause was collected. -/
def runUpdateTodos (s : DBState) (id : Int) (new_task : Option String)
    (new_due_date : Option String) (new_priority : Option Int)
    (mark_undone : Bool) : Except TodoError (List TodoRow) :=
  let updates := updateClauses new_task new_due_date new_priority mark_undone
  if updates.isEmpty then Except.ok s.todos
  else runUpdateSql ("UPDATE todos SET " ++ joinComma updates ++ " WHERE id = ?1")
    id s.todos

/-- The category block of `Database::update_task`: when a new category
is supplied, create it if missing, delete the id's `todo_categories`
rows and insert the new pair. -/
def updateCategoryTable (s : DBState) (id : Int) (new_category : Option String) :
    Except TodoError DBState :=
  match new_category with
  | some category =>
    match add_category s category with
    | Except.error e => Except.error e
    | Except.ok s2 =>
      match get_category_id s2 category with
      | Except.error e => Except.error e
      | Except.ok cid =>
        Except.ok { s2 with
          todo_categories :=
            (s2.todo_categories.filter (fun p => !(p.1 = id))) ++ [(id, cid)] }
  | none => Except.ok s

/-- The tag block of `Database::update_task`: when new tags are
supplied, delete the id's `todo_tags` rows and attach the comma-split,
trimmed tag list. -/
def updateTagsTable (s : DBState) (id : Int) (new_tags : List String) :
    Except TodoError DBState :=
  if new_tags.isEmpty then Except.ok s
  else
    let s3 := { s with todo_tags := s.todo_tags.filter (fun p => !(p.1 = id)) }
    let tags_list := (new_tags.map (fun t => (t.splitOn ",").map String.trim)).flatten
    attachTags s3 id tags_list

/-- `Database::update_task`: interpolated UPDATE of the todos table,
then the category block, then the tag block. -/
def update_task (s : DBState) (id : Int) (new_task : Option String)
    (new_due_date : Option String) (new_category : Option String)
    (new_tags : List String) (new_priority : Option Int)
    (mark_undone : Bool) : Except TodoError DBState :=
  match runUpdateTodos s id new_task new_due_date new_priority mark_undone with
  | Except.error e => Except.error e
  | Except.ok todos2 =>
    let s1 : DBState := { s with todos := todos2 }
    match updateCategoryTable s1 id new_category with
    | Except.error e => Except.error e
    | Except.ok s2 => updateTagsTable s2 id new_tags

/-- Quote-free strings: the sanitization condition under which the
interpolated UPDATE statement means what its writer intended. -/
def NoSq (t : String) : Prop := ∀ c ∈ t.data, ¬(c = sq)

instance (t : String) : Decidable (NoSq t) := by
  unfold NoSq
  infer_instance

/-- The intended per-row effect of the UPDATE for quote-free inputs,
with the due-date string already cast to a DATE value. -/
def cleanRowUpdate (nt : Option String) (ndv : Option Int) (np : Option Int)
    (u : Bool) (r : TodoRow) : TodoRow :=
  let r1 := match nt with | some t => { r with task := t } | none => r
  let r2 := match ndv with | some dv => { r1 with due_date := some dv } | none => r1
  let r3 := match np with | some p => { r2 with priority := p } | none => r2
  if u then { r3 with done := false, completion_date := none } else r3

/-- The parsed SET clauses of the un-injected UPDATE statement. -/
def intendedCls (nt nd : Option String) (np : Option Int) (u : Bool) :
    List (String × SqlVal) :=
  (match nt with | some t => [("task", SqlVal.str t)] | none => []) ++
  (match nd with | some d0 => [("due_date", SqlVal.str d0)] | none => []) ++
  (match np with | some p => [("priority", SqlVal.int p)] | none => []) ++
  (if u then [("done", SqlVal.int 0), ("completion_date", SqlVal.null)] else [])

/-- `Database::list_categories`. -/
def list_categories (s : DBState) : List String := s.categories.map NameRow.name

/-- `Database::list_tags`. -/
def list_tags (s : DBState) : List String := s.tags.map NameRow.name

/-- Character-list prefix test (Rust `str::contains` helper). -/
def strStartsWith : List Char → List Char → Bool
  | _, [] => true
  | [], _ :: _ => false
  | a :: as, b :: bs => a = b && strStartsWith as bs

/-- Contiguous-substring test on character lists. -/
def strFindSub : List Char → List Char → Bool
  | [], pat => pat.isEmpty
  | a :: rest, pat => strStartsWith (a :: rest) pat || strFindSub rest pat

/-- Rust `String::contains` with a string pattern: case-sensitive
contiguous substring. -/
def strContains (s pat : String) : Bool := strFindSub s.data pat.data

/-- The filter predicate of `Search::find_tasks`: query contained in the
name, in the category when present, or in some tag. -/
def taskMatches (query : String) (t : Task) : Bool :=
  strContains t.name query ||
    (match t.category with | some c => strContains c query | none => false) ||
    t.tags.any (fun tag => strContains tag query)

/-- `Search::find_tasks`: full list (`get_tasks(None)`) filtered by the
substring predicate, order preserved. -/
def find_tasks (s : DBState) (query : String) : List Task :=
  (get_tasks s none).filter (taskMatches query)

/-- Effect of `INSERT OR IGNORE INTO todos SELECT * FROM <reader>`:
insert each file row in order unless its primary key is already taken. -/
def insertOrIgnoreRows (todos : List TodoRow) (rows : List TodoRow) : List TodoRow :=
  rows.foldl (fun acc r =>
    if acc.any (fun x => x.id = r.id) then acc else acc ++ [r]) todos

/-- Effect of `INSERT OR REPLACE INTO todos SELECT * FROM <reader>`:
insert each file row in order, replacing any row with the same primary
key. -/
def insertOrReplaceRows (todos : List TodoRow) (rows : List TodoRow) : List TodoRow :=
  rows.foldl (fun acc r =>
    if acc.any (fun x => x.id = r.id) then
      acc.map (fun x => if x.id = r.id then r else x)
    else acc ++ [r]) todos

/-- Effect of `COPY todos (task, done, due_date, completion_date,
priority) FROM <file>` (and of the Excel column-subset INSERT): load the
non-id columns of each row, the id column taking its sequence default;
a collision with an existing id is a constraint error. -/
def copyTodos : DBState → List TodoRow → Except TodoError DBState
  | s, [] => Except.ok s
  | s, r :: rest =>
    let newId := s.todo_seq
    if s.todos.any (fun x => x.id = newId) then
      Except.error (TodoError.DuckDB "Constraint Error: duplicate key")
    else
      copyTodos
        { s with todos := s.todos ++ [{ r with id := newId }], todo_seq := newId + 1 }
        rest

/-- `Database::import_from_json`; the parsed file is the row list. -/
def import_from_json (s : DBState) (file : List TodoRow) (strategy : String) :
    Except TodoError DBState :=
  if strategy = "skip" then
    Except.ok { s with todos := insertOrIgnoreRows s.todos file }
  else if strategy = "remove" then copyTodos s file
  else if strategy = "upsert" then
    Except.ok { s with todos := insertOrReplaceRows s.todos file }
  else Except.error (TodoError.Custom "Unsupported strategy")

/-- `Database::import_from_parquet`. -/
def import_from_parquet (s : DBState) (file : List TodoRow) (strategy : String) :
    Except TodoError DBState :=
  if strategy = "skip" then
    Except.ok { s with todos := insertOrIgnoreRows s.todos file }
  else if strategy = "remove" then copyTodos s file
  else if strategy = "upsert" then
    Except.ok { s with todos := insertOrReplaceRows s.todos file }
  else Except.error (TodoError.Custom "Unsupported strategy")

/-- `Database::import_from_excel` (the INSTALL/LOAD spatial statements
touch no table; the "remove" branch is the column-subset INSERT). -/
def import_from_excel (s : DBState) (file : List TodoRow) (strategy : String) :
    Except TodoError DBState :=
  if strategy = "skip" then
    Except.ok { s with todos := insertOrIgnoreRows s.todos file }
  else if strategy = "remove" then copyTodos s file
  else if strategy = "upsert" then
    Except.ok { s with todos := insertOrReplaceRows s.todos file }
  else Except.error (TodoError.Custom "Unsupported strategy")

/-- `Database::import_from_csv`. -/
def import_from_csv (s : DBState) (file : List TodoRow) (strategy : String) :
    Except TodoError DBState :=
  if strategy = "skip" then
    Except.ok { s with todos := insertOrIgnoreRows s.todos file }
  else if strategy = "remove" then copyTodos s file
  else if strategy = "upsert" then
    Except.ok { s with todos := insertOrReplaceRows s.todos file }
  else Except.error (TodoError.Custom "Unsupported strategy")

/-- `Database::export_to_json`: `COPY todos TO <file>` dumps the table. -/
def export_to_json (s : DBState) : List TodoRow := s.todos

/-- `Database::export_to_parquet`. -/
def export_to_parquet (s : DBState) : List TodoRow := s.todos

/-- `Database::export_to_excel` (`COPY (SELECT * FROM todos) TO ...`). -/
def export_to_excel (s : DBState) : List TodoRow := s.todos

/-- `Database::export_to_csv`. -/
def export_to_csv (s : DBState) : List TodoRow := s.todos

/-- The format dispatch of `handle_import` in `src/main.rs`; an
unsupported format only prints a message. -/
def import_dispatch (s : DBState) (format : String) (file : List TodoRow)
    (strategy : String) : Except TodoError DBState :=
  if format = "json" then import_from_json s file strategy
  else if format = "parquet" then import_from_parquet s file strategy
  else if format = "xlsx" then import_from_excel s file strategy
  else if format = "csv" then import_from_csv s file strategy
  else Except.ok s

/-- The format dispatch of `handle_export` in `src/main.rs`; an
unsupported format writes no file. -/
def export_dispatch (s : DBState) (format : String) : List TodoRow :=
  if format = "json" then export_to_json s
  else if format = "parquet" then export_to_parquet s
  else if format = "xlsx" then export_to_excel s
  else if format = "csv" then export_to_csv s
  else []

/-- Per-row form of the spec invariant: completion_date is set exactly
when done is true. -/
def RowInv (r : TodoRow) : Prop := r.completion_date.isSome = r.done

/-- The spec invariant over the whole todos table. -/
def Inv (s : DBState) : Prop := ∀ r ∈ s.todos, RowInv r

/-- Well-formedness facts the schema guarantees for the todos table:
primary-key uniqueness and sequence freshness. -/
def TodosInv (s : DBState) : Prop :=
  (s.todos.map TodoRow.id).Nodup ∧ ∀ r ∈ s.todos, r.id < s.todo_seq

/-- Well-formedness facts for the categories table and its junction:
unique ids, sequence freshness, and the foreign key into categories. -/
def CatsInv (s : DBState) : Prop :=
  (s.categories.map NameRow.id).Nodup ∧
  (∀ c ∈ s.categories, c.id < s.category_seq) ∧
  (∀ p ∈ s.todo_categories, ∃ c ∈ s.categories, c.id = p.2)

/-- Well-formedness facts for the tags table and its junction. -/
def TagsInv (s : DBState) : Prop :=
  (s.tags.map NameRow.id).Nodup ∧
  (∀ c ∈ s.tags, c.id < s.tag_seq) ∧
  (∀ p ∈ s.todo_tags, ∃ c ∈ s.tags, c.id = p.2)

/-- Foreign keys of the junction tables into todos. -/
def JunctionTodoInv (s : DBState) : Prop :=
  (∀ p ∈ s.todo_categories, ∃ r ∈ s.todos, r.id = p.1) ∧
  (∀ p ∈ s.todo_tags, ∃ r ∈ s.todos, r.id = p.1)

/-- All schema-level well-formedness facts together; every state DuckDB
actually reaches satisfies them. -/
def WF (s : DBState) : Prop :=
  TodosInv s ∧ CatsInv s ∧ TagsInv s ∧ JunctionTodoInv s

/-- Projection of a todos row to its non-id columns, for the round-trip
claim's "up to reassignment of ids". -/
def projRow (r : TodoRow) : String × Bool × Option Int × Option Int × Int :=
  (r.task, r.done, r.due_date, r.completion_date, r.priority)


/-- Decidable equality for results, used to evaluate concrete runs. -/
instance {e a : Type} [DecidableEq e] [DecidableEq a] : DecidableEq (Except e a) :=
  fun x y =>
    match x, y with
    | Except.ok u, Except.ok v =>
      if h : u = v then Decidable.isTrue (by rw [h])
      else Decidable.isFalse (fun hc => h (by cases hc; rfl))
    | Except.ok _, Except.error _ => Decidable.isFalse (fun hc => Except.noConfusion hc)
    | Except.error _, Except.ok _ => Decidable.isFalse (fun hc => Except.noConfusion hc)
    | Except.error u, Except.error v =>
      if h : u = v then Decidable.isTrue (by rw [h])
      else Decidable.isFalse (fun hc => h (by cases hc; rfl))

instance (s : DBState) : Decidable (Inv s) := by
  unfold Inv RowInv; infer_instance

instance (s : DBState) : Decidable (TodosInv s) := by
  unfold TodosInv; infer_instance

instance (s : DBState) : Decidable (CatsInv s) := by
  unfold CatsInv; infer_instance

instance (s : DBState) : Decidable (TagsInv s) := by
  unfold TagsInv; infer_instance

instance (s : DBState) : Decidable (JunctionTodoInv s) := by
  unfold JunctionTodoInv; infer_instance

instance (s : DBState) : Decidable (WF s) := by
  unfold WF; infer_instance

/-- Sample task used by concrete witnesses. -/
def sampleTask : Task :=
  { id := 0, name := "Test Task", category := some "Personal", tags := ["test"],
    done := false, due_date := some 20088, completion_date := none, priority := 1 }

/-- One-task state used by concrete witnesses. -/
def oneTaskState : DBState :=
  { todos := [⟨1, "Test Task", false, some 20088, none, 1⟩],
    categories := [⟨1, "Personal"⟩], tags := [⟨1, "test"⟩],
    todo_categories := [(1, 1)], todo_tags := [(1, 1)],
    todo_seq := 2, category_seq := 2, tag_seq := 2 }


/-- A file row violating the completion-date/done equivalence. -/
def badRow : TodoRow := ⟨1, "x", true, none, none, 0⟩

/-- The separators that can follow a SET clause in the statements
`update_task` builds: a comma before the next clause or the space before
WHERE. -/
def sepish (b : List Char) : Prop := b.head? = some ',' ∨ b.head? = some ' '

/-- Scan for a `--` comment start outside a quoted literal; statements
with none are left intact by `stripComment`. -/
def cleanSql : List Char → Bool → Bool
  | [], _ => true
  | c :: rest, inStr =>
    if c = sq then cleanSql rest (!inStr)
    else if !inStr && c = '-' && rest.head? = some '-' then false
    else cleanSql rest inStr

/-- The SET clause texts of `update_task` paired with the clauses they
parse back to when the interpolated inputs are quote-free. -/
def itemsOf (nt nd : Option String) (np : Option Int) (u : Bool) :
    List (String × (String × SqlVal)) :=
  (match nt with
    | some t => [("task = " ++ sqStr ++ t ++ sqStr, ("task", SqlVal.str t))]
    | none => []) ++
  (match nd with
    | some d0 => [("due_date = " ++ sqStr ++ d0 ++ sqStr, ("due_date", SqlVal.str d0))]
    | none => []) ++
  (match np with
    | some p => [("priority = " ++ formatInt p, ("priority", SqlVal.int p))]
    | none => []) ++
  (if u then [("done = 0", ("done", SqlVal.int 0)),
    ("completion_date = NULL", ("completion_date", SqlVal.null))] else [])

/-- One-task state whose task is already done, used by concrete runs. -/
def oneDoneState : DBState :=
  { oneTaskState with todos := [⟨1, "Test Task", true, some 20088, some 5, 1⟩] }

/-- Result state of the C3 witness: only the task name was updated. -/
def c3Result : DBState :=
  { oneTaskState with todos := [⟨1, "Updated", false, some 20088, none, 1⟩] }


/-! Basic facts about the category / tag insertion helpers. -/

@[simp] theorem addCatState_todos (s : DBState) (n : String) :
    (addCatState s n).todos = s.todos := by
  unfold addCatState; split <;> rfl

@[simp] theorem addCatState_tags (s : DBState) (n : String) :
    (addCatState s n).tags = s.tags := by
  unfold addCatState; split <;> rfl

@[simp] theorem addCatState_todo_categories (s : DBState) (n : String) :
    (addCatState s n).todo_categories = s.todo_categories := by
  unfold addCatState; split <;> rfl

@[simp] theorem addCatState_todo_tags (s : DBState) (n : String) :
    (addCatState s n).todo_tags = s.todo_tags := by
  unfold addCatState; split <;> rfl

@[simp] theorem addCatState_todo_seq (s : DBState) (n : String) :
    (addCatState s n).todo_seq = s.todo_seq := by
  unfold addCatState; split <;> rfl

@[simp] theorem addCatState_tag_seq (s : DBState) (n : String) :
    (addCatState s n).tag_seq = s.tag_seq := by
  unfold addCatState; split <;> rfl

theorem addCatState_categories_ext (s : DBState) (n : String) :
    ∃ ext, (addCatState s n).categories = s.categories ++ ext := by
  unfold addCatState; split
  · exact ⟨[], by simp⟩
  · exact ⟨[⟨s.category_seq, n⟩], rfl⟩

@[simp] theorem addTagState_todos (s : DBState) (n : String) :
    (addTagState s n).todos = s.todos := by
  unfold addTagState; split <;> rfl

@[simp] theorem addTagState_categories (s : DBState) (n : String) :
    (addTagState s n).categories = s.categories := by
  unfold addTagState; split <;> rfl

@[simp] theorem addTagState_todo_categories (s : DBState) (n : String) :
    (addTagState s n).todo_categories = s.todo_categories := by
  unfold addTagState; split <;> rfl

@[simp] theorem addTagState_todo_tags (s : DBState) (n : String) :
    (addTagState s n).todo_tags = s.todo_tags := by
  unfold addTagState; split <;> rfl

@[simp] theorem addTagState_todo_seq (s : DBState) (n : String) :
    (addTagState s n).todo_seq = s.todo_seq := by
  unfold addTagState; split <;> rfl

@[simp] theorem addTagState_category_seq (s : DBState) (n : String) :
    (addTagState s n).category_seq = s.category_seq := by
  unfold addTagState; split <;> rfl

theorem addTagState_tags_ext (s : DBState) (n : String) :
    ∃ ext, (addTagState s n).tags = s.tags ++ ext := by
  unfold addTagState; split
  · exact ⟨[], by simp⟩
  · exact ⟨[⟨s.tag_seq, n⟩], rfl⟩

theorem mem_addCatState (s : DBState) (n : String) :
    ∃ c ∈ (addCatState s n).categories, c.name = n := by
  unfold addCatState
  by_cases h : s.categories.any (fun c => c.name = n)
  · rw [if_pos h]
    rcases List.any_eq_true.mp h with ⟨c, hc, he⟩
    exact ⟨c, hc, of_decide_eq_true he⟩
  · rw [if_neg h]
    exact ⟨⟨s.category_seq, n⟩, by simp, rfl⟩

theorem mem_addTagState (s : DBState) (n : String) :
    ∃ c ∈ (addTagState s n).tags, c.name = n := by
  unfold addTagState
  by_cases h : s.tags.any (fun c => c.name = n)
  · rw [if_pos h]
    rcases List.any_eq_true.mp h with ⟨c, hc, he⟩
    exact ⟨c, hc, of_decide_eq_true he⟩
  · rw [if_neg h]
    exact ⟨⟨s.tag_seq, n⟩, by simp, rfl⟩

theorem add_category_eq (s : DBState) (n : String) :
    add_category s n = Except.ok (addCatState s n) := by
  unfold add_category
  obtain ⟨c, hc, he⟩ := mem_addCatState s n
  have hmem : c ∈ (addCatState s n).categories.filter (fun c => c.name = n) :=
    List.mem_filter.mpr ⟨hc, by simp [he]⟩
  have hne : ((addCatState s n).categories.filter (fun c => c.name = n)).length ≠ 0 := by
    intro h0
    rw [List.length_eq_zero] at h0
    rw [h0] at hmem
    exact List.not_mem_nil c hmem
  simp [hne]

theorem add_tag_eq (s : DBState) (n : String) :
    add_tag s n = Except.ok (addTagState s n) := by
  unfold add_tag
  obtain ⟨c, hc, he⟩ := mem_addTagState s n
  have hmem : c ∈ (addTagState s n).tags.filter (fun c => c.name = n) :=
    List.mem_filter.mpr ⟨hc, by simp [he]⟩
  have hne : ((addTagState s n).tags.filter (fun c => c.name = n)).length ≠ 0 := by
    intro h0
    rw [List.length_eq_zero] at h0
    rw [h0] at hmem
    exact List.not_mem_nil c hmem
  simp [hne]

theorem get_category_id_addCatState (s : DBState) (n : String) :
    ∃ cid, get_category_id (addCatState s n) n = Except.ok cid := by
  obtain ⟨c, hc, he⟩ := mem_addCatState s n
  have hsome : ((addCatState s n).categories.find? (fun c => c.name = n)).isSome :=
    List.find?_isSome.mpr ⟨c, hc, by simp [he]⟩
  obtain ⟨c0, hf⟩ := Option.isSome_iff_exists.mp hsome
  exact ⟨c0.id, by unfold get_category_id; rw [hf]⟩

theorem get_tag_id_addTagState (s : DBState) (n : String) :
    ∃ tid, get_tag_id (addTagState s n) n = Except.ok tid := by
  obtain ⟨c, hc, he⟩ := mem_addTagState s n
  have hsome : ((addTagState s n).tags.find? (fun c => c.name = n)).isSome :=
    List.find?_isSome.mpr ⟨c, hc, by simp [he]⟩
  obtain ⟨c0, hf⟩ := Option.isSome_iff_exists.mp hsome
  exact ⟨c0.id, by unfold get_tag_id; rw [hf]⟩

/-! Facts about the tag attachment loop. -/

theorem attachTags_ok (names : List String) :
    ∀ s d, ∃ s2, attachTags s d names = Except.ok s2 := by
  induction names with
  | nil => intro s d; exact ⟨s, rfl⟩
  | cons tag rest ih =>
    intro s d
    obtain ⟨tid, htid⟩ := get_tag_id_addTagState s tag
    obtain ⟨s2, h2⟩ := ih { addTagState s tag with
      todo_tags := (addTagState s tag).todo_tags ++ [(d, tid)] } d
    exact ⟨s2, by unfold attachTags; simp only [add_tag_eq, htid]; exact h2⟩

theorem attachTags_spec (names : List String) :
    ∀ s d s2, attachTags s d names = Except.ok s2 →
      s2.todos = s.todos ∧ s2.categories = s.categories ∧
      s2.todo_categories = s.todo_categories ∧
      s2.category_seq = s.category_seq ∧ s2.todo_seq = s.todo_seq ∧
      (∃ ext, s2.tags = s.tags ++ ext) ∧
      (∃ pairs, s2.todo_tags = s.todo_tags ++ pairs ∧ ∀ p ∈ pairs, p.1 = d) := by
  induction names with
  | nil =>
    intro s d s2 h
    cases h
    exact ⟨rfl, rfl, rfl, rfl, rfl, ⟨[], by simp⟩, ⟨[], by simp, by simp⟩⟩
  | cons tag rest ih =>
    intro s d s2 h
    unfold attachTags at h
    obtain ⟨tid, htid⟩ := get_tag_id_addTagState s tag
    simp only [add_tag_eq, htid] at h
    obtain ⟨h1, h2, h3, h4, h5, ⟨ext, hext⟩, ⟨pairs, hpairs, hall⟩⟩ := ih _ _ _ h
    obtain ⟨ext0, hext0⟩ := addTagState_tags_ext s tag
    refine ⟨by simpa using h1, by simpa using h2, by simpa using h3,
      by simpa using h4, by simpa using h5, ⟨ext0 ++ ext, ?_⟩,
      ⟨(d, tid) :: pairs, ?_, ?_⟩⟩
    · rw [hext]; simp [hext0]
    · rw [hpairs]; simp
    · intro p hp
      rcases List.mem_cons.mp hp with h | h
      · rw [h]
      · exact hall p h

/-! Facts about the blocks of update_task. -/

theorem filter_replace_other {L : List (Int × Int)} {id d : Int} (hd : ¬(d = id))
    (tail : List (Int × Int)) (htail : ∀ p ∈ tail, p.1 = id) :
    ((L.filter (fun p => !(p.1 = id))) ++ tail).filter (fun p => p.1 = d) =
      L.filter (fun p => p.1 = d) := by
  rw [List.filter_append]
  have h1 : tail.filter (fun p => p.1 = d) = [] := by
    rw [List.filter_eq_nil_iff]
    intro p hp
    simp only [htail p hp, decide_eq_true_eq]
    exact fun h => hd h.symm
  rw [h1, List.append_nil, List.filter_filter]
  apply List.filter_congr
  intro a _
  by_cases h : a.1 = d
  · simp only [h, decide_True, Bool.true_and, Bool.not_eq_true']
    exact decide_eq_false hd
  · simp [h]

theorem updateCategoryTable_spec (s : DBState) (id : Int) (nc : Option String) :
    ∃ s2, updateCategoryTable s id nc = Except.ok s2 ∧
      s2.todos = s.todos ∧ s2.tags = s.tags ∧ s2.todo_tags = s.todo_tags ∧
      s2.tag_seq = s.tag_seq ∧ s2.todo_seq = s.todo_seq ∧
      (∃ ext, s2.categories = s.categories ++ ext) ∧
      (nc = none → s2 = s) ∧
      (∀ d, ¬(d = id) → s2.todo_categories.filter (fun p => p.1 = d) =
        s.todo_categories.filter (fun p => p.1 = d)) := by
  cases nc with
  | none =>
    exact ⟨s, rfl, rfl, rfl, rfl, rfl, rfl, ⟨[], by simp⟩, fun _ => rfl, fun d _ => rfl⟩
  | some c =>
    obtain ⟨cid, hcid⟩ := get_category_id_addCatState s c
    obtain ⟨ext, hext⟩ := addCatState_categories_ext s c
    refine ⟨{ addCatState s c with
        todo_categories :=
          ((addCatState s c).todo_categories.filter (fun p => !(p.1 = id))) ++ [(id, cid)] },
      ?_, ?_, ?_, ?_, ?_, ?_, ?_, ?_, ?_⟩
    · unfold updateCategoryTable
      simp only [add_category_eq, hcid]
    · simp
    · simp
    · simp
    · simp
    · simp
    · exact ⟨ext, by simpa using hext⟩
    · intro h; exact Option.noConfusion h
    · intro d hd
      show (((addCatState s c).todo_categories.filter (fun p => !(p.1 = id)))
          ++ [(id, cid)]).filter (fun p => p.1 = d) = _
      rw [addCatState_todo_categories]
      exact filter_replace_other hd [(id, cid)] (by simp)

theorem updateTagsTable_spec (s : DBState) (id : Int) (ntg : List String) :
    ∃ s2, updateTagsTable s id ntg = Except.ok s2 ∧
      s2.todos = s.todos ∧ s2.categories = s.categories ∧
      s2.todo_categories = s.todo_categories ∧
      s2.category_seq = s.category_seq ∧ s2.todo_seq = s.todo_seq ∧
      (∃ ext, s2.tags = s.tags ++ ext) ∧
      (ntg = [] → s2 = s) ∧
      (∀ d, ¬(d = id) → s2.todo_tags.filter (fun p => p.1 = d) =
        s.todo_tags.filter (fun p => p.1 = d)) := by
  by_cases hemp : ntg.isEmpty
  · refine ⟨s, ?_, rfl, rfl, rfl, rfl, rfl, ⟨[], by simp⟩, fun _ => rfl, fun d _ => rfl⟩
    unfold updateTagsTable
    rw [if_pos hemp]
  · set s3 : DBState := { s with todo_tags := s.todo_tags.filter (fun p => !(p.1 = id)) }
      with hs3
    set tl := (ntg.map (fun t => (t.splitOn ",").map String.trim)).flatten with htl
    obtain ⟨s2, h2⟩ := attachTags_ok tl s3 id
    obtain ⟨g1, g2, g3, g4, g5, ⟨ext, hext⟩, ⟨pairs, hpairs, hall⟩⟩ := attachTags_spec tl s3 id s2 h2
    refine ⟨s2, ?_, by rw [g1], by rw [g2], by rw [g3], by rw [g4], by rw [g5],
      ⟨ext, by rw [hext]⟩, ?_, ?_⟩
    · unfold updateTagsTable
      rw [if_neg hemp]
      exact h2
    · intro h
      rw [h] at hemp
      exact absurd rfl hemp
    · intro d hd
      rw [hpairs]
      show ((s.todo_tags.filter (fun p => !(p.1 = id))) ++ pairs).filter
          (fun p => p.1 = d) = _
      exact filter_replace_other hd pairs hall

theorem update_task_spec (s : DBState) (id : Int) (nt : Option String) (nd : Option String)
    (nc : Option String) (ntg : List String) (np : Option Int) (u : Bool) :
    ∀ s2, update_task s id nt nd nc ntg np u = Except.ok s2 →
      (∃ todos2, runUpdateTodos s id nt nd np u = Except.ok todos2 ∧
        s2.todos = todos2) ∧
      (∃ ext, s2.categories = s.categories ++ ext) ∧
      (∃ ext, s2.tags = s.tags ++ ext) ∧
      (nc = none → s2.todo_categories = s.todo_categories) ∧
      (ntg = [] → s2.todo_tags = s.todo_tags) ∧
      (∀ d, ¬(d = id) → s2.todo_categories.filter (fun p => p.1 = d) =
        s.todo_categories.filter (fun p => p.1 = d)) ∧
      (∀ d, ¬(d = id) → s2.todo_tags.filter (fun p => p.1 = d) =
        s.todo_tags.filter (fun p => p.1 = d)) := by
  intro s2 h
  simp only [update_task] at h
  cases hrun : runUpdateTodos s id nt nd np u with
  | error e =>
    rw [hrun] at h
    cases h
  | ok todos2 =>
    simp only [hrun] at h
    obtain ⟨sc, hsc, c1, c2, c3, _, _, ⟨cext, hcext⟩, hcnone, hcfilter⟩ :=
      updateCategoryTable_spec { s with todos := todos2 } id nc
    simp only [hsc] at h
    obtain ⟨st, hst, t1, t2, t3, _, _, ⟨text, htext⟩, htnone, htfilter⟩ :=
      updateTagsTable_spec sc id ntg
    rw [hst] at h
    injection h with h
    subst h
    refine ⟨⟨todos2, rfl, ?_⟩, ?_, ?_, ?_, ?_, ?_, ?_⟩
    · rw [t1, c1]
    · exact ⟨cext, by rw [t2, hcext]⟩
    · exact ⟨text, by rw [htext, c2]⟩
    · intro hnc
      rw [t3, hcnone hnc]
    · intro hntg
      rw [htnone hntg, c3]
    · intro d hd
      rw [t3, hcfilter d hd]
    · intro d hd
      rw [htfilter d hd, c3]

/-! Facts about the intended row-level effect of the UPDATE. -/

@[simp] theorem cleanRowUpdate_id (nt : Option String) (ndv np : Option Int) (u : Bool)
    (r : TodoRow) : (cleanRowUpdate nt ndv np u r).id = r.id := by
  unfold cleanRowUpdate
  cases nt <;> cases ndv <;> cases np <;> cases u <;> rfl

theorem cleanRowUpdate_undone (nt : Option String) (ndv np : Option Int) (r : TodoRow) :
    (cleanRowUpdate nt ndv np true r).done = false ∧
    (cleanRowUpdate nt ndv np true r).completion_date = none := by
  unfold cleanRowUpdate
  cases nt <;> cases ndv <;> cases np <;> exact ⟨rfl, rfl⟩

theorem cleanRowUpdate_frame (nt : Option String) (ndv np : Option Int) (u : Bool)
    (r : TodoRow) :
    (nt = none → (cleanRowUpdate nt ndv np u r).task = r.task) ∧
    (ndv = none → (cleanRowUpdate nt ndv np u r).due_date = r.due_date) ∧
    (np = none → (cleanRowUpdate nt ndv np u r).priority = r.priority) ∧
    (u = false → (cleanRowUpdate nt ndv np u r).done = r.done ∧
      (cleanRowUpdate nt ndv np u r).completion_date = r.completion_date) := by
  unfold cleanRowUpdate
  cases nt <;> cases ndv <;> cases np <;> cases u <;>
    refine ⟨?_, ?_, ?_, ?_⟩ <;> intro h <;> first
      | exact ⟨rfl, rfl⟩
      | rfl
      | cases h

/-- C10: `add_category` and `add_tag` always return Ok; on a duplicate
name they leave the state unchanged, so the "already exists." error
branches are unreachable. -/
theorem add_category_add_tag_idempotent (s : DBState) (name : String) :
    (∃ s1, add_category s name = Except.ok s1) ∧
    ((∃ c ∈ s.categories, c.name = name) → add_category s name = Except.ok s) ∧
    (∃ s1, add_tag s name = Except.ok s1) ∧
    ((∃ c ∈ s.tags, c.name = name) → add_tag s name = Except.ok s) := by
  refine ⟨⟨_, add_category_eq s name⟩, ?_, ⟨_, add_tag_eq s name⟩, ?_⟩
  · rintro ⟨c, hc, hn⟩
    have hs : addCatState s name = s := by
      unfold addCatState
      rw [if_pos (List.any_eq_true.mpr ⟨c, hc, by simp [hn]⟩)]
    rw [add_category_eq, hs]
  · rintro ⟨c, hc, hn⟩
    have hs : addTagState s name = s := by
      unfold addTagState
      rw [if_pos (List.any_eq_true.mpr ⟨c, hc, by simp [hn]⟩)]
    rw [add_tag_eq, hs]

/-- Concrete run of the C10 theorem: re-adding the existing category
and tag of the one-task state is a no-op Ok. -/
theorem add_category_add_tag_idempotent_witness :
    add_category oneTaskState "Personal" = Except.ok oneTaskState ∧
    add_tag oneTaskState "test" = Except.ok oneTaskState :=
  ⟨(add_category_add_tag_idempotent oneTaskState "Personal").2.1
      ⟨⟨1, "Personal"⟩, by decide, rfl⟩,
    (add_category_add_tag_idempotent oneTaskState "test").2.2.2
      ⟨⟨1, "test"⟩, by decide, rfl⟩⟩

/-- C7: `find_tasks` returns exactly the tasks of the full list whose
name, category (when present) or some tag contains the query as a
case-sensitive substring, in storage order (a sublist of the full
list); a task matching on no such field is not returned. -/
theorem find_tasks_filters_by_substring (s : DBState) (query : String) :
    List.Sublist (find_tasks s query) (get_tasks s none) ∧
    ∀ t, t ∈ find_tasks s query ↔
      (t ∈ get_tasks s none ∧
        (strContains t.name query = true ∨
          (∃ c, t.category = some c ∧ strContains c query = true) ∨
          (∃ tag ∈ t.tags, strContains tag query = true))) := by
  constructor
  · exact List.filter_sublist _
  · intro t
    unfold find_tasks
    rw [List.mem_filter]
    constructor
    · rintro ⟨hmem, hmatch⟩
      refine ⟨hmem, ?_⟩
      unfold taskMatches at hmatch
      cases htc : t.category with
      | none =>
        rw [htc] at hmatch
        simp only [Bool.or_eq_true, List.any_eq_true] at hmatch
        rcases hmatch with (h | h) | ⟨tag, htag, hc⟩
        · exact Or.inl h
        · exact absurd h (by simp)
        · exact Or.inr (Or.inr ⟨tag, htag, hc⟩)
      | some c =>
        rw [htc] at hmatch
        simp only [Bool.or_eq_true, List.any_eq_true] at hmatch
        rcases hmatch with (h | h) | ⟨tag, htag, hc⟩
        · exact Or.inl h
        · exact Or.inr (Or.inl ⟨c, rfl, h⟩)
        · exact Or.inr (Or.inr ⟨tag, htag, hc⟩)
    · rintro ⟨hmem, hmatch⟩
      refine ⟨hmem, ?_⟩
      unfold taskMatches
      simp only [Bool.or_eq_true, List.any_eq_true]
      rcases hmatch with h | ⟨c, hceq, h⟩ | ⟨tag, htag, h⟩
      · exact Or.inl (Or.inl h)
      · rw [hceq]
        exact Or.inl (Or.inr h)
      · exact Or.inr ⟨tag, htag, h⟩

/-- The empty store satisfies the completion-date/done equivalence, yet
a skip-strategy JSON import of a row with done=true and NULL
completion_date succeeds and produces a state violating it; this is why
the import conjunct of the invariant-preservation theorem carries a
per-row proviso. -/
theorem import_breaks_completion_invariant :
    Inv Database_new ∧
    import_from_json Database_new [badRow] "skip" =
      Except.ok { Database_new with todos := [badRow] } ∧
    ¬ Inv { Database_new with todos := [badRow] } := by
  refine ⟨by decide, by decide, by decide⟩

/-! The four import functions share one body. -/

theorem import_from_parquet_eq (s : DBState) (file : List TodoRow) (strategy : String) :
    import_from_parquet s file strategy = import_from_json s file strategy := rfl

theorem import_from_excel_eq (s : DBState) (file : List TodoRow) (strategy : String) :
    import_from_excel s file strategy = import_from_json s file strategy := rfl

theorem import_from_csv_eq (s : DBState) (file : List TodoRow) (strategy : String) :
    import_from_csv s file strategy = import_from_json s file strategy := rfl

/-- C8: for every supported format, any strategy other than skip,
remove and upsert makes the import return the application-defined
"Unsupported strategy" error; no ok state (hence no table change) is
produced. -/
theorem import_unsupported_strategy_errors (s : DBState) (file : List TodoRow)
    (format strategy : String)
    (hf : format = "json" ∨ format = "parquet" ∨ format = "xlsx" ∨ format = "csv")
    (hs1 : ¬(strategy = "skip")) (hs2 : ¬(strategy = "remove"))
    (hs3 : ¬(strategy = "upsert")) :
    import_dispatch s format file strategy =
      Except.error (TodoError.Custom "Unsupported strategy") := by
  have hbody : import_from_json s file strategy =
      Except.error (TodoError.Custom "Unsupported strategy") := by
    unfold import_from_json
    rw [if_neg hs1, if_neg hs2, if_neg hs3]
  rcases hf with h | h | h | h <;> subst h <;>
    simp [import_dispatch, import_from_parquet_eq, import_from_excel_eq,
      import_from_csv_eq, hbody]

/-- Concrete run of the C8 theorem: a "merge" strategy CSV import is
rejected. -/
theorem import_unsupported_strategy_errors_witness :
    import_dispatch Database_new "csv" [] "merge" =
      Except.error (TodoError.Custom "Unsupported strategy") :=
  import_unsupported_strategy_errors Database_new [] "csv" "merge"
    (Or.inr (Or.inr (Or.inr rfl))) (by decide) (by decide) (by decide)

/-! Facts about the import folds. -/

theorem insertOrIgnoreRows_cons (todos : List TodoRow) (r : TodoRow)
    (rest : List TodoRow) :
    insertOrIgnoreRows todos (r :: rest) =
      insertOrIgnoreRows
        (if todos.any (fun x => x.id = r.id) then todos else todos ++ [r]) rest := rfl

theorem insertOrReplaceRows_cons (todos : List TodoRow) (r : TodoRow)
    (rest : List TodoRow) :
    insertOrReplaceRows todos (r :: rest) =
      insertOrReplaceRows
        (if todos.any (fun x => x.id = r.id)
          then todos.map (fun x => if x.id = r.id then r else x)
          else todos ++ [r]) rest := rfl

theorem insertOrIgnoreRows_append (rows : List TodoRow) :
    ∀ todos, ∃ ext, insertOrIgnoreRows todos rows = todos ++ ext := by
  induction rows with
  | nil => intro todos; exact ⟨[], by simp [insertOrIgnoreRows]⟩
  | cons r rest ih =>
    intro todos
    unfold insertOrIgnoreRows
    rw [List.foldl_cons]
    by_cases h : todos.any (fun x => x.id = r.id)
    · rw [if_pos h]
      exact ih todos
    · rw [if_neg h]
      obtain ⟨ext, hext⟩ := ih (todos ++ [r])
      exact ⟨[r] ++ ext, by rw [← List.append_assoc]; exact hext⟩

theorem insertOrIgnoreRows_all_present (rows : List TodoRow) :
    ∀ todos, (∀ q ∈ rows, ∃ x ∈ todos, x.id = q.id) →
      insertOrIgnoreRows todos rows = todos := by
  induction rows with
  | nil => intro todos _; rfl
  | cons r rest ih =>
    intro todos hall
    unfold insertOrIgnoreRows
    rw [List.foldl_cons]
    have hr : todos.any (fun x => x.id = r.id) := by
      obtain ⟨x, hx, hid⟩ := hall r (List.mem_cons_self r rest)
      exact List.any_eq_true.mpr ⟨x, hx, by simp [hid]⟩
    rw [if_pos hr]
    exact ih todos (fun q hq => hall q (List.mem_cons_of_mem r hq))

theorem insertOrIgnoreRows_mem (rows : List TodoRow) :
    ∀ todos r, r ∈ insertOrIgnoreRows todos rows → r ∈ todos ∨ r ∈ rows := by
  induction rows with
  | nil => intro todos r h; exact Or.inl h
  | cons q rest ih =>
    intro todos r h
    unfold insertOrIgnoreRows at h
    rw [List.foldl_cons] at h
    by_cases hc : todos.any (fun x => x.id = q.id)
    · rw [if_pos hc] at h
      rcases ih todos r h with h | h
      · exact Or.inl h
      · exact Or.inr (List.mem_cons_of_mem q h)
    · rw [if_neg hc] at h
      rcases ih (todos ++ [q]) r h with h | h
      · rcases List.mem_append.mp h with h | h
        · exact Or.inl h
        · exact Or.inr (by rw [List.mem_singleton.mp h]; exact List.mem_cons_self q rest)
      · exact Or.inr (List.mem_cons_of_mem q h)

theorem replace_map_ids (todos : List TodoRow) (r : TodoRow) :
    (todos.map (fun x => if x.id = r.id then r else x)).map TodoRow.id =
      todos.map TodoRow.id := by
  rw [List.map_map]
  apply List.map_congr_left
  intro x _
  by_cases h : x.id = r.id
  · simp [h]
  · simp [h]

theorem insertOrReplaceRows_mem (rows : List TodoRow) :
    ∀ todos r, r ∈ insertOrReplaceRows todos rows → r ∈ todos ∨ r ∈ rows := by
  induction rows with
  | nil => intro todos r h; exact Or.inl h
  | cons q rest ih =>
    intro todos r h
    unfold insertOrReplaceRows at h
    rw [List.foldl_cons] at h
    by_cases hc : todos.any (fun x => x.id = q.id)
    · rw [if_pos hc] at h
      rcases ih _ r h with h | h
      · obtain ⟨x, _, hx⟩ := List.mem_map.mp h
        by_cases hxq : x.id = q.id
        · rw [if_pos hxq] at hx
          exact Or.inr (by rw [← hx]; exact List.mem_cons_self q rest)
        · rw [if_neg hxq] at hx
          exact Or.inl (by rw [← hx]; assumption)
      · exact Or.inr (List.mem_cons_of_mem q h)
    · rw [if_neg hc] at h
      rcases ih (todos ++ [q]) r h with h | h
      · rcases List.mem_append.mp h with h | h
        · exact Or.inl h
        · exact Or.inr (by rw [List.mem_singleton.mp h]; exact List.mem_cons_self q rest)
      · exact Or.inr (List.mem_cons_of_mem q h)

theorem insertOrReplaceRows_self_noop (rows : List TodoRow) :
    ∀ todos, (todos.map TodoRow.id).Nodup → (∀ q ∈ rows, q ∈ todos) →
      insertOrReplaceRows todos rows = todos := by
  induction rows with
  | nil => intro todos _ _; rfl
  | cons r rest ih =>
    intro todos hnd hall
    have hrmem : r ∈ todos := hall r (List.mem_cons_self r rest)
    rw [insertOrReplaceRows_cons]
    have hr : todos.any (fun x => x.id = r.id) :=
      List.any_eq_true.mpr ⟨r, hrmem, by simp⟩
    rw [if_pos hr]
    have hmapid : todos.map (fun x => if x.id = r.id then r else x) = todos := by
      conv_rhs => rw [← List.map_id todos]
      apply List.map_congr_left
      intro x hx
      by_cases h : x.id = r.id
      · rw [if_pos h]
        exact (List.inj_on_of_nodup_map hnd hx hrmem h).symm
      · rw [if_neg h]
        rfl
    rw [hmapid]
    exact ih todos hnd (fun q hq => hall q (List.mem_cons_of_mem r hq))

theorem copyTodos_spec (rows : List TodoRow) :
    ∀ s s2, copyTodos s rows = Except.ok s2 →
      s2.todos.map projRow = s.todos.map projRow ++ rows.map projRow ∧
      s2.categories = s.categories ∧ s2.tags = s.tags ∧
      s2.todo_categories = s.todo_categories ∧ s2.todo_tags = s.todo_tags ∧
      (∃ ext, s2.todos = s.todos ++ ext ∧
        ∀ x ∈ ext, ∃ q ∈ rows, projRow x = projRow q) := by
  induction rows with
  | nil =>
    intro s s2 h
    cases h
    exact ⟨by simp, rfl, rfl, rfl, rfl, ⟨[], by simp, by simp⟩⟩
  | cons r rest ih =>
    intro s s2 h
    unfold copyTodos at h
    by_cases hc : s.todos.any (fun x => x.id = s.todo_seq)
    · rw [if_pos hc] at h
      cases h
    · rw [if_neg hc] at h
      obtain ⟨h1, h2, h3, h4, h5, ⟨ext, hext, hproj⟩⟩ := ih _ _ h
      refine ⟨?_, by simpa using h2, by simpa using h3, by simpa using h4,
        by simpa using h5, ⟨{ r with id := s.todo_seq } :: ext, ?_, ?_⟩⟩
      · rw [h1]
        simp only [List.map_append, List.map_cons]
        have : projRow { r with id := s.todo_seq } = projRow r := rfl
        rw [this, List.append_assoc]
        rfl
      · rw [hext]
        simp
      · intro x hx
        rcases List.mem_cons.mp hx with h | h
        · exact ⟨r, List.mem_cons_self r rest, by rw [h]; rfl⟩
        · obtain ⟨q, hq, hpq⟩ := hproj x h
          exact ⟨q, List.mem_cons_of_mem r hq, hpq⟩

theorem nodup_filter_key {a b : Type} [DecidableEq b] (f : a → b) :
    ∀ (l : List a), (l.map f).Nodup → ∀ x ∈ l, l.filter (fun y => f y = f x) = [x] := by
  intro l
  induction l with
  | nil => intro _ x hx; exact absurd hx (List.not_mem_nil x)
  | cons q rest ih =>
    intro hnd x hx
    rw [List.map_cons, List.nodup_cons] at hnd
    rcases List.mem_cons.mp hx with rfl | hx0
    · rw [List.filter_cons, if_pos (by simp)]
      have hnil : rest.filter (fun y => f y = f x) = [] := by
        rw [List.filter_eq_nil_iff]
        intro bb hb
        simp only [decide_eq_true_eq]
        intro hfb
        exact hnd.1 (hfb ▸ List.mem_map_of_mem f hb)
      rw [hnil]
    · rw [List.filter_cons]
      have hfa : ¬(f q = f x) := by
        intro hfa
        exact hnd.1 (hfa ▸ List.mem_map_of_mem f hx0)
      rw [if_neg (by simpa using hfa)]
      exact ih hnd.2 x hx0

theorem replace_filter_key (todos : List TodoRow) (r : TodoRow)
    (hnd : (todos.map TodoRow.id).Nodup) (hexists : todos.any (fun x => x.id = r.id)) :
    (todos.map (fun x => if x.id = r.id then r else x)).filter
      (fun x => x.id = r.id) = [r] := by
  obtain ⟨x0, hx0, hid0⟩ := List.any_eq_true.mp hexists
  have hid0x : x0.id = r.id := of_decide_eq_true hid0
  rw [List.filter_map]
  have hcomp : todos.filter
      ((fun x => decide (x.id = r.id)) ∘ (fun x => if x.id = r.id then r else x)) =
      todos.filter (fun x => x.id = r.id) := by
    apply List.filter_congr
    intro x _
    simp only [Function.comp_apply]
    by_cases h : x.id = r.id
    · rw [if_pos h]
      simp [h]
    · rw [if_neg h]
  have hkey : todos.filter (fun x => x.id = r.id) = [x0] := by
    have := nodup_filter_key TodoRow.id todos hnd x0 hx0
    rw [← hid0x]
    exact this
  rw [hcomp, hkey, List.map_singleton, if_pos hid0x]

theorem replace_filter_other (todos : List TodoRow) (r : TodoRow) (d : Int)
    (hd : ¬(d = r.id)) :
    (todos.map (fun x => if x.id = r.id then r else x)).filter (fun x => x.id = d) =
      todos.filter (fun x => x.id = d) := by
  rw [List.filter_map]
  have hcomp : todos.filter
      ((fun x => decide (x.id = d)) ∘ (fun x => if x.id = r.id then r else x)) =
      todos.filter (fun x => x.id = d && !(x.id = r.id)) := by
    apply List.filter_congr
    intro x _
    simp only [Function.comp_apply]
    by_cases h : x.id = r.id
    · rw [if_pos h]
      have h1 : ¬(r.id = d) := fun hh => hd hh.symm
      have h2 : ¬(x.id = d) := fun hh => hd (by rw [← hh, h])
      simp [h1, h2, h]
    · rw [if_neg h]
      simp [h]
  rw [hcomp]
  have hsplit : todos.filter (fun x => x.id = d && !(x.id = r.id)) =
      todos.filter (fun x => x.id = d) := by
    apply List.filter_congr
    intro x _
    by_cases h : x.id = d
    · have : ¬(x.id = r.id) := fun hh => hd (by rw [← h, hh])
      simp [h, this, hd]
    · simp [h]
  rw [hsplit]
  have hmap : (todos.filter (fun x => x.id = d)).map
      (fun x => if x.id = r.id then r else x) = todos.filter (fun x => x.id = d) := by
    conv_rhs => rw [← List.map_id (todos.filter (fun x => x.id = d))]
    apply List.map_congr_left
    intro x hx
    have hxd : x.id = d := of_decide_eq_true (List.mem_filter.mp hx).2
    have : ¬(x.id = r.id) := fun hh => hd (by rw [← hxd, hh])
    rw [if_neg this]
    rfl
  exact hmap

theorem append_filter_other (todos : List TodoRow) (r : TodoRow) (d : Int)
    (hd : ¬(d = r.id)) :
    (todos ++ [r]).filter (fun x => x.id = d) = todos.filter (fun x => x.id = d) := by
  rw [List.filter_append]
  have : [r].filter (fun x => x.id = d) = [] := by
    simp only [List.filter_cons, List.filter_nil]
    rw [if_neg (by simpa using fun hh => hd hh.symm)]
  rw [this, List.append_nil]

theorem insertOrReplaceRows_filter_frame (rows : List TodoRow) :
    ∀ todos d, (∀ q ∈ rows, ¬(q.id = d)) →
      (insertOrReplaceRows todos rows).filter (fun x => x.id = d) =
        todos.filter (fun x => x.id = d) := by
  induction rows with
  | nil => intro todos d _; rfl
  | cons r rest ih =>
    intro todos d hall
    have hrd : ¬(d = r.id) := fun h => hall r (List.mem_cons_self r rest) h.symm
    rw [insertOrReplaceRows_cons]
    by_cases h : todos.any (fun x => x.id = r.id)
    · rw [if_pos h, ih _ d (fun q hq => hall q (List.mem_cons_of_mem r hq)),
        replace_filter_other todos r d hrd]
    · rw [if_neg h, ih _ d (fun q hq => hall q (List.mem_cons_of_mem r hq)),
        append_filter_other todos r d hrd]

theorem step_ids_nodup (todos : List TodoRow) (r : TodoRow)
    (hnd : (todos.map TodoRow.id).Nodup) :
    (((if todos.any (fun x => x.id = r.id)
        then todos.map (fun x => if x.id = r.id then r else x)
        else todos ++ [r])).map TodoRow.id).Nodup := by
  by_cases h : todos.any (fun x => x.id = r.id)
  · rw [if_pos h, replace_map_ids]
    exact hnd
  · rw [if_neg h, List.map_append, List.map_singleton]
    rw [List.nodup_append]
    refine ⟨hnd, List.nodup_singleton r.id, ?_⟩
    intro i hi him
    rw [List.mem_singleton] at him
    subst him
    obtain ⟨x, hx, hxid⟩ := List.mem_map.mp hi
    rw [List.any_eq_true] at h
    exact h ⟨x, hx, by simp [hxid]⟩

theorem insertOrReplaceRows_filter (rows : List TodoRow) :
    ∀ todos, (todos.map TodoRow.id).Nodup → (rows.map TodoRow.id).Nodup →
      ∀ fr ∈ rows, (insertOrReplaceRows todos rows).filter
        (fun x => x.id = fr.id) = [fr] := by
  induction rows with
  | nil => intro todos _ _ fr hfr; exact absurd hfr (List.not_mem_nil fr)
  | cons r rest ih =>
    intro todos hnd hrows fr hfr
    rw [List.map_cons, List.nodup_cons] at hrows
    rw [insertOrReplaceRows_cons]
    rcases List.mem_cons.mp hfr with rfl | hfr0
    · have hrest : ∀ q ∈ rest, ¬(q.id = fr.id) := by
        intro q hq heq
        exact hrows.1 (heq ▸ List.mem_map_of_mem TodoRow.id hq)
      rw [insertOrReplaceRows_filter_frame rest _ fr.id hrest]
      by_cases h : todos.any (fun x => x.id = fr.id)
      · rw [if_pos h]
        exact replace_filter_key todos fr hnd h
      · rw [if_neg h]
        rw [List.filter_append]
        have h1 : todos.filter (fun x => x.id = fr.id) = [] := by
          rw [List.filter_eq_nil_iff]
          intro x hx
          simp only [decide_eq_true_eq]
          intro hxe
          rw [List.any_eq_true] at h
          exact h ⟨x, hx, by simp [hxe]⟩
        rw [h1, List.nil_append]
        simp
    · exact ih _ (step_ids_nodup todos r hnd) hrows.2 fr hfr0

theorem import_from_json_skip (s : DBState) (file : List TodoRow) :
    import_from_json s file "skip" =
      Except.ok { s with todos := insertOrIgnoreRows s.todos file } := by
  unfold import_from_json
  rw [if_pos rfl]

theorem import_from_json_remove (s : DBState) (file : List TodoRow) :
    import_from_json s file "remove" = copyTodos s file := by
  unfold import_from_json
  rw [if_neg (by decide), if_pos rfl]

theorem import_from_json_upsert (s : DBState) (file : List TodoRow) :
    import_from_json s file "upsert" =
      Except.ok { s with todos := insertOrReplaceRows s.todos file } := by
  unfold import_from_json
  rw [if_neg (by decide), if_neg (by decide), if_pos rfl]

theorem import_dispatch_supported (s : DBState) (file : List TodoRow) (fmt : String)
    (hf : fmt = "json" ∨ fmt = "parquet" ∨ fmt = "xlsx" ∨ fmt = "csv") (strat : String) :
    import_dispatch s fmt file strat = import_from_json s file strat := by
  rcases hf with h | h | h | h <;> subst h <;>
    simp [import_dispatch, import_from_parquet_eq, import_from_excel_eq,
      import_from_csv_eq]

/-- C4: for every format, a skip-strategy import keeps every
pre-existing row whose primary key matches an imported row unchanged in
the table, while an upsert-strategy import replaces every such row by
the imported row carrying that key. -/
theorem import_skip_keeps_upsert_replaces (s : DBState) (file : List TodoRow) (fmt : String)
    (hf : fmt = "json" ∨ fmt = "parquet" ∨ fmt = "xlsx" ∨ fmt = "csv")
    (hnd : (s.todos.map TodoRow.id).Nodup) (hndf : (file.map TodoRow.id).Nodup) :
    (∀ s2, import_dispatch s fmt file "skip" = Except.ok s2 →
      ∀ r ∈ s.todos, (∃ fr ∈ file, fr.id = r.id) → r ∈ s2.todos) ∧
    (∀ s2, import_dispatch s fmt file "upsert" = Except.ok s2 →
      ∀ fr ∈ file, (∃ r ∈ s.todos, r.id = fr.id) →
        fr ∈ s2.todos ∧ ∀ x ∈ s2.todos, x.id = fr.id → x = fr) := by
  constructor
  · intro s2 h r hr _
    rw [import_dispatch_supported s file fmt hf, import_from_json_skip] at h
    injection h with h
    subst h
    show r ∈ insertOrIgnoreRows s.todos file
    obtain ⟨ext, hext⟩ := insertOrIgnoreRows_append file s.todos
    rw [hext]
    exact List.mem_append_left ext hr
  · intro s2 h fr hfr _
    rw [import_dispatch_supported s file fmt hf, import_from_json_upsert] at h
    injection h with h
    subst h
    have hfil := insertOrReplaceRows_filter file s.todos hnd hndf fr hfr
    constructor
    · have hmem : fr ∈ (insertOrReplaceRows s.todos file).filter
          (fun x => x.id = fr.id) := by
        rw [hfil]
        exact List.mem_singleton.mpr rfl
      exact (List.mem_filter.mp hmem).1
    · intro x hx hxid
      have hmem : x ∈ (insertOrReplaceRows s.todos file).filter
          (fun x => x.id = fr.id) := List.mem_filter.mpr ⟨hx, by simp [hxid]⟩
      rw [hfil] at hmem
      exact List.mem_singleton.mp hmem

/-- One-row store and one-row import file exercising the C4 theorem. -/
def c4State : DBState :=
  { Database_new with todos := [⟨1, "old", false, none, none, 0⟩], todo_seq := 2 }

/-- Replacement row for the C4 witness. -/
def c4File : List TodoRow := [⟨1, "new", false, none, none, 5⟩]

/-- Result state of the C4 witness upsert. -/
def c4Result : DBState :=
  { c4State with todos := [⟨1, "new", false, none, none, 5⟩] }

/-- Concrete run of the C4 theorem: the upsert import replaces the
matching row. -/
theorem import_skip_keeps_upsert_replaces_witness :
    (⟨1, "new", false, none, none, 5⟩ : TodoRow) ∈ c4Result.todos :=
  (((import_skip_keeps_upsert_replaces c4State c4File "json" (Or.inl rfl)
      (by decide) (by decide)).2 c4Result (by decide)
      ⟨1, "new", false, none, none, 5⟩ (by decide)
      ⟨⟨1, "old", false, none, none, 0⟩, by decide, rfl⟩)).1

theorem export_dispatch_supported (s : DBState) (fmt : String)
    (hf : fmt = "json" ∨ fmt = "parquet" ∨ fmt = "xlsx" ∨ fmt = "csv") :
    export_dispatch s fmt = s.todos := by
  rcases hf with h | h | h | h <;> subst h <;>
    simp [export_dispatch, export_to_json, export_to_parquet, export_to_excel,
      export_to_csv]

/-- C6: exporting the todos table in any supported format and importing
the same file back (any supported strategy) reproduces the original set
of task rows up to reassignment of ids (the id-stripped row sets
coincide). -/
theorem export_import_roundtrip (s : DBState) (fmt strat : String)
    (hf : fmt = "json" ∨ fmt = "parquet" ∨ fmt = "xlsx" ∨ fmt = "csv")
    (hst : strat = "skip" ∨ strat = "remove" ∨ strat = "upsert")
    (hnd : (s.todos.map TodoRow.id).Nodup) :
    ∀ s2, import_dispatch s fmt (export_dispatch s fmt) strat = Except.ok s2 →
      ∀ pr, pr ∈ s2.todos.map projRow ↔ pr ∈ s.todos.map projRow := by
  intro s2 h pr
  rw [export_dispatch_supported s fmt hf,
    import_dispatch_supported s s.todos fmt hf] at h
  rcases hst with rfl | rfl | rfl
  · rw [import_from_json_skip] at h
    injection h with h
    subst h
    show pr ∈ (insertOrIgnoreRows s.todos s.todos).map projRow ↔ _
    rw [insertOrIgnoreRows_all_present s.todos s.todos (fun q hq => ⟨q, hq, rfl⟩)]
  · rw [import_from_json_remove] at h
    obtain ⟨h1, _⟩ := copyTodos_spec s.todos s s2 h
    rw [h1, List.mem_append]
    constructor
    · rintro (h | h) <;> exact h
    · exact Or.inl
  · rw [import_from_json_upsert] at h
    injection h with h
    subst h
    show pr ∈ (insertOrReplaceRows s.todos s.todos).map projRow ↔ _
    rw [insertOrReplaceRows_self_noop s.todos s.todos hnd (fun q hq => hq)]

/-- Concrete run of the C6 theorem on the one-task state: the upsert
round trip through JSON preserves the id-stripped row set. -/
theorem export_import_roundtrip_witness :
    projRow ⟨1, "Test Task", false, some 20088, none, 1⟩ ∈
        oneTaskState.todos.map projRow ↔
      projRow ⟨1, "Test Task", false, some 20088, none, 1⟩ ∈
        oneTaskState.todos.map projRow :=
  export_import_roundtrip oneTaskState "json" "upsert" (Or.inl rfl)
    (Or.inr (Or.inr rfl)) (by decide) oneTaskState (by decide) _

theorem applyFold_none (cls : List (String × SqlVal)) :
    List.foldl (fun acc cl => acc.bind (fun row => applyClause row cl)) none cls =
      none := by
  induction cls with
  | nil => rfl
  | cons cl rest ih => exact ih

theorem isEmpty_false_of_ne_nil {a : List Char} (h : ¬(a = [])) : a.isEmpty = false := by
  cases a with
  | nil => exact absurd rfl h
  | cons c t => rfl

theorem takeWhile_concat (p : Char → Bool) (a b : List Char)
    (ha : ∀ c ∈ a, p c = true)
    (hb : ∀ c0, b.head? = some c0 → p c0 = false) :
    (a ++ b).takeWhile p = a := by
  induction a with
  | nil =>
    rw [List.nil_append]
    cases b with
    | nil => rfl
    | cons c0 b0 =>
      rw [List.takeWhile_cons, hb c0 rfl, if_neg Bool.false_ne_true]
  | cons c a0 ih =>
    rw [List.cons_append, List.takeWhile_cons, ha c (List.mem_cons_self c a0),
      if_pos rfl, ih (fun c2 hc2 => ha c2 (List.mem_cons_of_mem c hc2))]

theorem dropToken_self (ts : List Char) : ∀ rest, dropToken ts (ts ++ rest) = some rest := by
  induction ts with
  | nil => intro rest; rfl
  | cons c ts0 ih =>
    intro rest
    rw [List.cons_append]
    simp only [dropToken, if_pos rfl]
    exact ih rest

theorem dropToken_refl (ts : List Char) : dropToken ts ts = some [] := by
  have h := dropToken_self ts []
  rwa [List.append_nil] at h

theorem parseStringBody_sq (rest : List Char)
    (hrest : ∀ c0, rest.head? = some c0 → ¬(c0 = sq)) :
    parseStringBody (sq :: rest) = some ([], rest) := by
  cases rest with
  | nil =>
    simp only [parseStringBody]
    rw [if_pos trivial]
  | cons c2 r2 =>
    simp only [parseStringBody]
    rw [if_pos trivial, if_neg (hrest c2 rfl)]

theorem parseStringBody_cons_ne (c : Char) (rest : List Char) (h : ¬(c = sq)) :
    parseStringBody (c :: rest) =
      match parseStringBody rest with
      | some (v, r) => some (c :: v, r)
      | none => none := by
  cases rest with
  | nil =>
    simp only [parseStringBody]
    rw [if_neg h]
  | cons c2 r2 =>
    simp only [parseStringBody]
    rw [if_neg h]

theorem parseStringBody_clean (t : List Char) (rest : List Char)
    (ht : ∀ c ∈ t, ¬(c = sq))
    (hrest : ∀ c0, rest.head? = some c0 → ¬(c0 = sq)) :
    parseStringBody (t ++ sq :: rest) = some (t, rest) := by
  induction t with
  | nil =>
    rw [List.nil_append]
    exact parseStringBody_sq rest hrest
  | cons c t0 ih =>
    rw [List.cons_append, parseStringBody_cons_ne c _ (ht c (List.mem_cons_self c t0)),
      ih (fun c2 hc2 => ht c2 (List.mem_cons_of_mem c hc2))]

theorem parseIdent_concat (a b : List Char)
    (hne : ¬(a = []))
    (ha : ∀ c ∈ a, (c.isAlpha || c = '_') = true)
    (hb : ∀ c0, b.head? = some c0 → (c0.isAlpha || c0 = '_') = false) :
    parseIdent (a ++ b) = some (String.mk a, b) := by
  have htw : (a ++ b).takeWhile (fun c => c.isAlpha || c = '_') = a :=
    takeWhile_concat _ a b ha hb
  simp only [parseIdent, htw, isEmpty_false_of_ne_nil hne]
  rw [if_neg Bool.false_ne_true, List.drop_left]

theorem digitChar_props (d : Nat) (h : d < 10) :
    (digitChar d).isDigit = true ∧ ¬(digitChar d = sq) ∧ ¬(digitChar d = '-') ∧
      ((digitChar d).isAlpha || digitChar d = '_') = false ∧
      ¬(digitChar d = ' ') ∧ ¬(digitChar d = ',') := by
  interval_cases d <;> exact ⟨by decide, by decide, by decide, by decide, by decide, by decide⟩

theorem natDigitsAux_acc (n : Nat) (acc : List Char) :
    natDigitsAux n acc = natDigitsAux n [] ++ acc := by
  induction n using Nat.strong_induction_on generalizing acc with
  | _ n ih =>
    by_cases h : n < 10
    · rw [natDigitsAux, dif_pos h]
      conv_rhs => rw [natDigitsAux, dif_pos h]
      rfl
    · rw [natDigitsAux, dif_neg h, ih (n / 10) (Nat.div_lt_self (by omega) (by omega))]
      conv_rhs => rw [natDigitsAux, dif_neg h,
        ih (n / 10) (Nat.div_lt_self (by omega) (by omega))]
      rw [List.append_assoc]
      rfl

theorem natDigitsAux_mem (n : Nat) :
    ∀ c ∈ natDigitsAux n [], ∃ d, d < 10 ∧ c = digitChar d := by
  induction n using Nat.strong_induction_on with
  | _ n ih =>
    by_cases h : n < 10
    · rw [natDigitsAux, dif_pos h]
      intro c hc
      rw [List.mem_singleton.mp hc]
      exact ⟨n, h, rfl⟩
    · rw [natDigitsAux, dif_neg h, natDigitsAux_acc]
      intro c hc
      rcases List.mem_append.mp hc with hc | hc
      · exact ih (n / 10) (Nat.div_lt_self (by omega) (by omega)) c hc
      · rw [List.mem_singleton.mp hc]
        exact ⟨n % 10, Nat.mod_lt n (by omega), rfl⟩

theorem natDigitsAux_ne_nil (n : Nat) : ¬(natDigitsAux n [] = []) := by
  by_cases h : n < 10
  · rw [natDigitsAux, dif_pos h]
    exact List.cons_ne_nil _ _
  · rw [natDigitsAux, dif_neg h, natDigitsAux_acc]
    intro hx
    exact List.cons_ne_nil _ _ (List.append_eq_nil.mp hx).2

theorem digitChar_toNat (d : Nat) (h : d < 10) : (digitChar d).toNat - 48 = d := by
  interval_cases d <;> decide

theorem natDigitsAux_val (n : Nat) (v : Nat) :
    (natDigitsAux n []).foldl (fun a c => a * 10 + (c.toNat - 48)) v =
      v * 10 ^ (natDigitsAux n []).length + n := by
  induction n using Nat.strong_induction_on generalizing v with
  | _ n ih =>
    by_cases h : n < 10
    · rw [natDigitsAux, dif_pos h]
      simp only [List.foldl_cons, List.foldl_nil, List.length_cons, List.length_nil]
      rw [digitChar_toNat n h, pow_one]
    · have hlt : n / 10 < n := Nat.div_lt_self (by omega) (by omega)
      rw [natDigitsAux, dif_neg h, natDigitsAux_acc]
      rw [List.foldl_append, List.length_append]
      rw [ih (n / 10) hlt v]
      simp only [List.foldl_cons, List.foldl_nil, List.length_cons, List.length_nil,
        Nat.zero_add]
      rw [digitChar_toNat (n % 10) (Nat.mod_lt n (by omega)), pow_succ]
      have h10 : 10 * (n / 10) + n % 10 = n := Nat.div_add_mod n 10
      have hring : (v * 10 ^ (natDigitsAux (n / 10) []).length + n / 10) * 10 +
          n % 10 =
          v * (10 ^ (natDigitsAux (n / 10) []).length * 10) + (10 * (n / 10) + n % 10) := by
        ring
      rw [hring, h10]

theorem formatInt_data_neg (n : Int) (h : n < 0) :
    (formatInt n).data = '-' :: natDigitsAux n.natAbs [] := by
  rw [formatInt, if_pos h]

theorem formatInt_data_nonneg (n : Int) (h : ¬(n < 0)) :
    (formatInt n).data = natDigitsAux n.natAbs [] := by
  rw [formatInt, if_neg h]

theorem formatInt_zero_data : (formatInt 0).data = ['0'] := by
  rw [formatInt_data_nonneg 0 (by omega)]
  rw [show ((0 : Int).natAbs) = 0 from rfl, natDigitsAux, dif_pos (by omega)]
  rfl

theorem parseDigitsLit_concat (n : Nat) (b : List Char)
    (hb : ∀ c0, b.head? = some c0 → c0.isDigit = false) :
    parseDigitsLit (natDigitsAux n [] ++ b) = some (n, b) := by
  have hall : ∀ c ∈ natDigitsAux n [], c.isDigit = true := by
    intro c hc
    obtain ⟨d, hd, hcd⟩ := natDigitsAux_mem n c hc
    rw [hcd]
    exact (digitChar_props d hd).1
  have htw : (natDigitsAux n [] ++ b).takeWhile (fun c => c.isDigit) =
      natDigitsAux n [] := takeWhile_concat _ _ b hall hb
  simp only [parseDigitsLit, htw, isEmpty_false_of_ne_nil (natDigitsAux_ne_nil n)]
  rw [if_neg Bool.false_ne_true, List.drop_left, natDigitsAux_val n 0]
  rw [Nat.zero_mul, Nat.zero_add]

theorem parseVal_str (t : String) (b : List Char)
    (ht : NoSq t)
    (hb : ∀ c0, b.head? = some c0 → ¬(c0 = sq)) :
    parseVal (sq :: (t.data ++ sq :: b)) = some (SqlVal.str t, b) := by
  simp only [parseVal]
  rw [if_pos trivial, parseStringBody_clean t.data b ht hb]

theorem parseVal_int (n : Int) (b : List Char)
    (hb : ∀ c0, b.head? = some c0 → c0.isDigit = false) :
    parseVal ((formatInt n).data ++ b) = some (SqlVal.int n, b) := by
  by_cases h : n < 0
  · rw [formatInt_data_neg n h, List.cons_append]
    simp only [parseVal]
    rw [if_pos trivial, parseDigitsLit_concat n.natAbs b hb,
      if_neg (show ¬('-' = sq) from by decide)]
    simp only [Option.some.injEq, Prod.mk.injEq, SqlVal.int.injEq]
    exact ⟨by omega, trivial⟩
  · rw [formatInt_data_nonneg n h]
    obtain ⟨c, cs, hcons⟩ := List.exists_cons_of_ne_nil (natDigitsAux_ne_nil n.natAbs)
    have hcmem : c ∈ natDigitsAux n.natAbs [] := by
      rw [hcons]
      exact List.mem_cons_self c cs
    obtain ⟨d, hd, hcd⟩ := natDigitsAux_mem n.natAbs c hcmem
    subst hcd
    have hprops := digitChar_props d hd
    rw [hcons, List.cons_append]
    simp only [parseVal]
    rw [if_neg hprops.2.1, if_neg hprops.2.2.1, if_pos hprops.1,
      show digitChar d :: (cs ++ b) = natDigitsAux n.natAbs [] ++ b from by
        rw [hcons, List.cons_append],
      parseDigitsLit_concat n.natAbs b hb]
    simp only [Option.some.injEq, Prod.mk.injEq, SqlVal.int.injEq]
    exact ⟨by omega, trivial⟩

theorem parseVal_zero (b : List Char)
    (hb : ∀ c0, b.head? = some c0 → c0.isDigit = false) :
    parseVal ('0' :: b) = some (SqlVal.int 0, b) := by
  rw [show ('0' :: b) = (formatInt 0).data ++ b from by rw [formatInt_zero_data]; rfl]
  exact parseVal_int 0 b hb

theorem parseVal_null (b : List Char) :
    parseVal (("NULL").data ++ b) = some (SqlVal.null, b) := by
  rw [show ("NULL").data ++ b = 'N' :: (('U' :: 'L' :: 'L' :: []) ++ b) from rfl]
  simp only [parseVal]
  rw [if_neg (show ¬('N' = sq) from by decide),
    if_neg (show ¬('N' = '-') from by decide),
    if_neg (show ¬('N'.isDigit = true) from by decide),
    show 'N' :: (('U' :: 'L' :: 'L' :: []) ++ b) = ("NULL").data ++ b from rfl,
    dropToken_self]

theorem sepish_not_sq (b : List Char) (h : sepish b) :
    ∀ c0, b.head? = some c0 → ¬(c0 = sq) := by
  intro c0 hc0
  rcases h with h | h <;> rw [hc0] at h <;> injection h with h <;> rw [h] <;> decide

theorem sepish_not_digit (b : List Char) (h : sepish b) :
    ∀ c0, b.head? = some c0 → c0.isDigit = false := by
  intro c0 hc0
  rcases h with h | h <;> rw [hc0] at h <;> injection h with h <;> rw [h] <;> decide

theorem parseClause_build (col : String) (rest b : List Char) (v : SqlVal)
    (hne : ¬(col.data = []))
    (hcol : ∀ c ∈ col.data, (c.isAlpha || c = '_') = true)
    (hval : parseVal rest = some (v, b)) :
    parseClause (col.data ++ ' ' :: '=' :: ' ' :: rest) = some ((col, v), b) := by
  have hid : parseIdent (col.data ++ ' ' :: '=' :: ' ' :: rest) =
      some (String.mk col.data, ' ' :: '=' :: ' ' :: rest) :=
    parseIdent_concat col.data _ hne hcol
      (by
        intro c0 hc0
        injection hc0 with hc0
        rw [← hc0]
        decide)
  have hdt : dropToken ((" = ").data) (' ' :: '=' :: ' ' :: rest) = some rest := by
    rw [show ' ' :: '=' :: ' ' :: rest = (" = ").data ++ rest from rfl, dropToken_self]
  simp only [parseClause, hid, hdt, hval]

theorem parseClause_task (t : String) (b : List Char) (ht : NoSq t) (hb : sepish b) :
    parseClause (("task = " ++ sqStr ++ t ++ sqStr).data ++ b) =
      some (("task", SqlVal.str t), b) := by
  have hd : ("task = " ++ sqStr ++ t ++ sqStr).data ++ b =
      ("task").data ++ ' ' :: '=' :: ' ' :: (sq :: (t.data ++ sq :: b)) := by
    simp only [String.data_append,
      show ("task = ").data = ("task").data ++ [' ', '=', ' '] from rfl,
      show sqStr.data = [sq] from rfl]
    simp [List.append_assoc]
  rw [hd]
  exact parseClause_build ("task") _ b (SqlVal.str t) (by decide) (by decide)
    (parseVal_str t b ht (sepish_not_sq b hb))

theorem parseClause_due (t : String) (b : List Char) (ht : NoSq t) (hb : sepish b) :
    parseClause (("due_date = " ++ sqStr ++ t ++ sqStr).data ++ b) =
      some (("due_date", SqlVal.str t), b) := by
  have hd : ("due_date = " ++ sqStr ++ t ++ sqStr).data ++ b =
      ("due_date").data ++ ' ' :: '=' :: ' ' :: (sq :: (t.data ++ sq :: b)) := by
    simp only [String.data_append,
      show ("due_date = ").data = ("due_date").data ++ [' ', '=', ' '] from rfl,
      show sqStr.data = [sq] from rfl]
    simp [List.append_assoc]
  rw [hd]
  exact parseClause_build ("due_date") _ b (SqlVal.str t) (by decide) (by decide)
    (parseVal_str t b ht (sepish_not_sq b hb))

theorem parseClause_prio (p : Int) (b : List Char) (hb : sepish b) :
    parseClause (("priority = " ++ formatInt p).data ++ b) =
      some (("priority", SqlVal.int p), b) := by
  have hd : ("priority = " ++ formatInt p).data ++ b =
      ("priority").data ++ ' ' :: '=' :: ' ' :: ((formatInt p).data ++ b) := by
    simp only [String.data_append,
      show ("priority = ").data = ("priority").data ++ [' ', '=', ' '] from rfl]
    simp [List.append_assoc]
  rw [hd]
  exact parseClause_build ("priority") _ b (SqlVal.int p) (by decide) (by decide)
    (parseVal_int p b (sepish_not_digit b hb))

theorem parseClause_done0 (b : List Char) (hb : sepish b) :
    parseClause (("done = 0").data ++ b) = some (("done", SqlVal.int 0), b) := by
  rw [show ("done = 0").data ++ b = ("done").data ++ ' ' :: '=' :: ' ' :: ('0' :: b)
    from rfl]
  exact parseClause_build ("done") _ b (SqlVal.int 0) (by decide) (by decide)
    (parseVal_zero b (sepish_not_digit b hb))

theorem parseClause_compnull (b : List Char) :
    parseClause (("completion_date = NULL").data ++ b) =
      some (("completion_date", SqlVal.null), b) := by
  rw [show ("completion_date = NULL").data ++ b =
    ("completion_date").data ++ ' ' :: '=' :: ' ' :: (("NULL").data ++ b) from rfl]
  exact parseClause_build ("completion_date") _ b SqlVal.null (by decide) (by decide)
    (parseVal_null b)

theorem parseClausesF_chain :
    ∀ (items : List (String × (String × SqlVal))) (b : List Char),
      b.head? = some ' ' →
      (∀ it ∈ items, ∀ b2, sepish b2 →
        parseClause (it.1.data ++ b2) = some (it.2, b2)) →
      ∀ fuel, items.length < fuel → ¬(items = []) →
        parseClausesF fuel ((joinComma (items.map Prod.fst)).data ++ b) =
          some (items.map Prod.snd, b) := by
  intro items
  induction items with
  | nil =>
    intro b hb hitems fuel hfuel hne
    exact absurd rfl hne
  | cons it rest ih =>
    intro b hb hitems fuel hfuel _
    cases fuel with
    | zero => exact absurd hfuel (by omega)
    | succ f =>
      cases rest with
      | nil =>
        have hdt : dropToken ((", ").data) b = none := by
          cases b with
          | nil => cases hb
          | cons c0 b0 =>
            injection hb with hb
            subst hb
            rfl
        have hpc := hitems it (List.mem_cons_self it []) b (Or.inr hb)
        simp only [List.map_cons, List.map_nil, joinComma, parseClausesF, hpc, hdt]
      | cons it2 rest2 =>
        have hd : (joinComma (((it :: it2 :: rest2).map Prod.fst))).data ++ b =
            it.1.data ++
              (',' :: ' ' :: ((joinComma ((it2 :: rest2).map Prod.fst)).data ++ b)) := by
          simp only [List.map_cons, joinComma, String.data_append,
            show ((", ").data : List Char) = [',', ' '] from rfl]
          simp [List.append_assoc]
        rw [hd]
        have hsep : sepish
            (',' :: ' ' :: ((joinComma ((it2 :: rest2).map Prod.fst)).data ++ b)) :=
          Or.inl rfl
        have hpc := hitems it (List.mem_cons_self it (it2 :: rest2)) _ hsep
        have hdt : dropToken ((", ").data)
            (',' :: ' ' :: ((joinComma ((it2 :: rest2).map Prod.fst)).data ++ b)) =
            some ((joinComma ((it2 :: rest2).map Prod.fst)).data ++ b) := by
          rw [show (',' :: ' ' ::
              ((joinComma ((it2 :: rest2).map Prod.fst)).data ++ b)) =
            (", ").data ++ ((joinComma ((it2 :: rest2).map Prod.fst)).data ++ b)
            from rfl, dropToken_self]
        have hlen : (it2 :: rest2).length < f := by
          simp only [List.length_cons] at hfuel ⊢
          omega
        have hrec := ih b hb
          (fun it3 h3 b2 hb2 => hitems it3 (List.mem_cons_of_mem it h3) b2 hb2)
          f hlen (List.cons_ne_nil it2 rest2)
        simp only [parseClausesF, hpc, hdt, hrec]
        simp only [List.map_cons]

theorem stripComment_clean :
    ∀ (xs : List Char) (inStr : Bool), cleanSql xs inStr = true →
      stripComment xs inStr = xs := by
  intro xs
  induction xs with
  | nil => intro inStr _; rfl
  | cons c rest ih =>
    intro inStr h
    simp only [cleanSql] at h
    simp only [stripComment]
    by_cases hc : c = sq
    · rw [if_pos hc] at h
      rw [if_pos hc, ih (!inStr) h]
    · rw [if_neg hc] at h
      by_cases h2 : (!inStr && c = '-' && rest.head? = some '-') = true
      · rw [if_pos h2] at h
        exact absurd h (by simp)
      · rw [if_neg h2] at h ⊢
        rw [if_neg hc, ih inStr h]

theorem cleanSql_flat (a : List Char)
    (ha : ∀ c ∈ a, ¬(c = sq) ∧ ¬(c = '-')) :
    ∀ b inStr, cleanSql (a ++ b) inStr = cleanSql b inStr := by
  induction a with
  | nil => intro b inStr; rfl
  | cons c a0 ih =>
    intro b inStr
    have hc := ha c (List.mem_cons_self c a0)
    rw [List.cons_append]
    simp only [cleanSql]
    have hdash : ¬((!inStr && c = '-' && (a0 ++ b).head? = some '-') = true) := by
      simp [hc.2]
    rw [if_neg hc.1, if_neg hdash]
    exact ih (fun c2 h2 => ha c2 (List.mem_cons_of_mem c h2)) b inStr

theorem cleanSql_inStr (t : List Char) (ht : ∀ c ∈ t, ¬(c = sq)) :
    ∀ b, cleanSql (t ++ b) true = cleanSql b true := by
  induction t with
  | nil => intro b; rfl
  | cons c t0 ih =>
    intro b
    have hc := ht c (List.mem_cons_self c t0)
    rw [List.cons_append]
    simp only [cleanSql]
    have hdash : ¬((!true && c = '-' && (t0 ++ b).head? = some '-') = true) := by
      simp
    rw [if_neg hc, if_neg hdash]
    exact ih (fun c2 h2 => ht c2 (List.mem_cons_of_mem c h2)) b

theorem cleanSql_quoted (t : String) (ht : NoSq t) (b : List Char) :
    cleanSql ((sq :: (t.data ++ [sq])) ++ b) false = cleanSql b false := by
  rw [List.cons_append]
  simp only [cleanSql]
  rw [if_pos trivial, List.append_assoc]
  simp only [Bool.not_false]
  rw [cleanSql_inStr t.data ht ([sq] ++ b)]
  rw [show ([sq] ++ b : List Char) = sq :: b from rfl]
  simp only [cleanSql]
  rw [if_pos trivial]
  simp only [Bool.not_true]

theorem cleanSql_digits (n : Nat) (b : List Char) (inStr : Bool) :
    cleanSql (natDigitsAux n [] ++ b) inStr = cleanSql b inStr :=
  cleanSql_flat (natDigitsAux n [])
    (fun c hc => by
      obtain ⟨d, hd, hcd⟩ := natDigitsAux_mem n c hc
      rw [hcd]
      exact ⟨(digitChar_props d hd).2.1, (digitChar_props d hd).2.2.1⟩) b inStr

theorem cleanSql_formatInt (p : Int) (b : List Char) :
    cleanSql ((formatInt p).data ++ b) false = cleanSql b false := by
  by_cases h : p < 0
  · rw [formatInt_data_neg p h, List.cons_append]
    obtain ⟨c, cs, hcons⟩ :=
      List.exists_cons_of_ne_nil (natDigitsAux_ne_nil p.natAbs)
    obtain ⟨d, hd, hcd⟩ := natDigitsAux_mem p.natAbs c
      (by rw [hcons]; exact List.mem_cons_self c cs)
    subst hcd
    have hhead : (natDigitsAux p.natAbs [] ++ b).head? = some (digitChar d) := by
      rw [hcons]
      rfl
    simp only [cleanSql]
    split
    · rename_i hx
      exact absurd hx (by decide)
    · split
      · rename_i hx
        simp at hx
        rcases hx with hx | hx
        · rw [hcons] at hx
          simp at hx
          exact absurd hx (digitChar_props d hd).2.2.1
        · exact absurd hx.1 (natDigitsAux_ne_nil p.natAbs)
      · exact cleanSql_digits p.natAbs b false
  · rw [formatInt_data_nonneg p h]
    exact cleanSql_digits p.natAbs b false

theorem cleanSql_join (items : List String)
    (hitems : ∀ it ∈ items, ∀ b, cleanSql (it.data ++ b) false = cleanSql b false) :
    ∀ b, cleanSql ((joinComma items).data ++ b) false = cleanSql b false := by
  induction items with
  | nil => intro b; rfl
  | cons it rest ih =>
    cases rest with
    | nil =>
      intro b
      simp only [joinComma]
      exact hitems it (List.mem_cons_self it []) b
    | cons it2 rest2 =>
      intro b
      simp only [joinComma, String.data_append]
      rw [List.append_assoc, List.append_assoc,
        hitems it (List.mem_cons_self it (it2 :: rest2)),
        cleanSql_flat ((", ").data) (by decide)]
      exact ih (fun it3 h3 => hitems it3 (List.mem_cons_of_mem it h3)) b

theorem trimRight_nonspace (ys : List Char) (c : Char) (hc : ¬(c = ' ')) :
    trimRightSpaces (ys ++ [c]) = ys ++ [c] := by
  simp only [trimRightSpaces]
  rw [List.reverse_append]
  simp only [List.reverse_cons, List.reverse_nil, List.nil_append,
    List.cons_append]
  rw [List.dropWhile_cons]
  rw [if_neg (by simp [hc])]
  rw [List.reverse_cons, List.reverse_reverse]

theorem itemsOf_fst (nt nd : Option String) (np : Option Int) (u : Bool) :
    (itemsOf nt nd np u).map Prod.fst = updateClauses nt nd np u := by
  cases nt <;> cases nd <;> cases np <;> cases u <;>
    simp [itemsOf, updateClauses]

theorem itemsOf_snd (nt nd : Option String) (np : Option Int) (u : Bool) :
    (itemsOf nt nd np u).map Prod.snd = intendedCls nt nd np u := by
  cases nt <;> cases nd <;> cases np <;> cases u <;>
    simp [itemsOf, intendedCls]

theorem itemsOf_len (nt nd : Option String) (np : Option Int) (u : Bool) :
    (itemsOf nt nd np u).length < 8 := by
  cases nt <;> cases nd <;> cases np <;> cases u <;> simp [itemsOf]

theorem itemsOf_parse (nt nd : Option String) (np : Option Int) (u : Bool)
    (hnt : ∀ t, nt = some t → NoSq t) (hnd : ∀ d0, nd = some d0 → NoSq d0) :
    ∀ it ∈ itemsOf nt nd np u, ∀ b2, sepish b2 →
      parseClause (it.1.data ++ b2) = some (it.2, b2) := by
  intro it hit b2 hb2
  simp only [itemsOf, List.mem_append] at hit
  rcases hit with ((hit | hit) | hit) | hit
  · cases nt with
    | none => simp at hit
    | some t =>
      rw [List.mem_singleton.mp hit]
      exact parseClause_task t b2 (hnt t rfl) hb2
  · cases nd with
    | none => simp at hit
    | some d0 =>
      rw [List.mem_singleton.mp hit]
      exact parseClause_due d0 b2 (hnd d0 rfl) hb2
  · cases np with
    | none => simp at hit
    | some p =>
      rw [List.mem_singleton.mp hit]
      exact parseClause_prio p b2 hb2
  · cases u with
    | false => simp at hit
    | true =>
      rcases List.mem_cons.mp hit with hit | hit
      · rw [hit]
        exact parseClause_done0 b2 hb2
      · rw [List.mem_singleton.mp hit]
        exact parseClause_compnull b2

theorem itemsOf_clean (nt nd : Option String) (np : Option Int) (u : Bool)
    (hnt : ∀ t, nt = some t → NoSq t) (hnd : ∀ d0, nd = some d0 → NoSq d0) :
    ∀ it ∈ itemsOf nt nd np u, ∀ b,
      cleanSql (it.1.data ++ b) false = cleanSql b false := by
  intro it hit b
  simp only [itemsOf, List.mem_append] at hit
  rcases hit with ((hit | hit) | hit) | hit
  · cases nt with
    | none => simp at hit
    | some t =>
      rw [List.mem_singleton.mp hit]
      rw [show ("task = " ++ sqStr ++ t ++ sqStr).data ++ b =
          ("task = ").data ++ ((sq :: (t.data ++ [sq])) ++ b) from by
        simp only [String.data_append, show sqStr.data = [sq] from rfl]
        simp [List.append_assoc]]
      rw [cleanSql_flat (("task = ").data) (by decide),
        cleanSql_quoted t (hnt t rfl) b]
  · cases nd with
    | none => simp at hit
    | some d0 =>
      rw [List.mem_singleton.mp hit]
      rw [show ("due_date = " ++ sqStr ++ d0 ++ sqStr).data ++ b =
          ("due_date = ").data ++ ((sq :: (d0.data ++ [sq])) ++ b) from by
        simp only [String.data_append, show sqStr.data = [sq] from rfl]
        simp [List.append_assoc]]
      rw [cleanSql_flat (("due_date = ").data) (by decide),
        cleanSql_quoted d0 (hnd d0 rfl) b]
  · cases np with
    | none => simp at hit
    | some p =>
      rw [List.mem_singleton.mp hit]
      rw [show ("priority = " ++ formatInt p).data ++ b =
          ("priority = ").data ++ ((formatInt p).data ++ b) from by
        simp [String.data_append, List.append_assoc]]
      rw [cleanSql_flat (("priority = ").data) (by decide),
        cleanSql_formatInt p b]
  · cases u with
    | false => simp at hit
    | true =>
      rcases List.mem_cons.mp hit with hit | hit
      · rw [hit]
        exact cleanSql_flat (("done = 0").data) (by decide) b false
      · rw [List.mem_singleton.mp hit]
        exact cleanSql_flat (("completion_date = NULL").data) (by decide) b false

theorem intendedCls_nodup (nt nd : Option String) (np : Option Int) (u : Bool) :
    ((intendedCls nt nd np u).map Prod.fst).Nodup := by
  cases nt <;> cases nd <;> cases np <;> cases u <;>
    simp [intendedCls]

theorem optBind_some {α β : Type} (a : α) (f : α → Option β) :
    (Option.some a).bind f = f a := rfl

theorem optBind_none {α β : Type} (f : α → Option β) :
    (Option.none : Option α).bind f = none := rfl

theorem optMap_some {α β : Type} (a : α) (f : α → β) :
    (Option.some a).map f = some (f a) := rfl

theorem optMap_none {α β : Type} (f : α → β) :
    (Option.none : Option α).map f = none := rfl

theorem applyClauses_nil (r : TodoRow) : applyClauses [] r = some r := rfl

theorem applyClauses_one (cl : String × SqlVal) (r : TodoRow) :
    applyClauses [cl] r = applyClause r cl := rfl

theorem applyClauses_undone (x : TodoRow) :
    applyClauses [("done", SqlVal.int 0), ("completion_date", SqlVal.null)] x =
      some { x with done := false, completion_date := none } := rfl

theorem applyClause_task_eq (r : TodoRow) (v : String) :
    applyClause r ("task", SqlVal.str v) = some { r with task := v } := rfl

theorem applyClause_due_eq (r : TodoRow) (v : String) :
    applyClause r ("due_date", SqlVal.str v) =
      (parseDate v).map (fun dv => { r with due_date := some dv }) := rfl

theorem applyClause_prio_eq (r : TodoRow) (n : Int) :
    applyClause r ("priority", SqlVal.int n) = some { r with priority := n } := rfl

theorem applyClauses_append (a b2 : List (String × SqlVal)) (r : TodoRow) :
    applyClauses (a ++ b2) r =
      (applyClauses a r).bind (fun x => applyClauses b2 x) := by
  cases ha : applyClauses a r with
  | none =>
    simp only [applyClauses, List.foldl_append]
    simp only [applyClauses] at ha
    rw [ha, applyFold_none]
    rfl
  | some x =>
    simp only [applyClauses, List.foldl_append]
    simp only [applyClauses] at ha
    rw [ha]
    rfl

theorem applyClauses_intended (nt nd : Option String) (np : Option Int) (u : Bool)
    (r r2 : TodoRow)
    (h : applyClauses (intendedCls nt nd np u) r = some r2) :
    r2 = cleanRowUpdate nt (nd.bind parseDate) np u r := by
  cases nd with
  | none =>
    cases nt <;> cases np <;> cases u <;>
      (simp only [intendedCls, applyClauses_append, applyClauses_nil,
        applyClauses_one, applyClause_task_eq, applyClause_prio_eq,
        applyClauses_undone, optBind_some, Option.some.injEq,
        Bool.false_eq_true, if_false, if_true,
        List.nil_append, List.append_nil] at h ;
       rw [← h] ;
       rfl)
  | some d0 =>
    cases hpd : parseDate d0 with
    | none =>
      exfalso
      cases nt <;> cases np <;> cases u <;>
        (simp only [intendedCls, applyClauses_append, applyClauses_nil,
          applyClauses_one, applyClause_task_eq, applyClause_due_eq,
          applyClause_prio_eq, applyClauses_undone, optBind_some, hpd,
          optMap_none, optBind_none, Bool.false_eq_true, if_false, if_true,
          List.nil_append, List.append_nil] at h ;
         exact Option.noConfusion h)
    | some dv =>
      cases nt <;> cases np <;> cases u <;>
        (simp only [intendedCls, applyClauses_append, applyClauses_nil,
          applyClauses_one, applyClause_task_eq, applyClause_due_eq,
          applyClause_prio_eq, applyClauses_undone, optBind_some, hpd,
          optMap_some, Option.some.injEq, Bool.false_eq_true, if_false, if_true,
          List.nil_append, List.append_nil] at h ;
         rw [optBind_some, hpd, ← h] ;
         rfl)

theorem applyToRows_some (cls : List (String × SqlVal)) (cond : TodoRow → Bool) :
    ∀ todos l, applyToRows cls cond todos = some l →
      ∀ g : TodoRow → TodoRow,
        (∀ r r2, applyClauses cls r = some r2 → r2 = g r) →
        l = todos.map (fun r => if cond r then g r else r) := by
  intro todos
  induction todos with
  | nil =>
    intro l h g hg
    simp only [applyToRows] at h
    injection h with h
    rw [← h]
    rfl
  | cons r rest ih =>
    intro l h g hg
    simp only [applyToRows] at h
    by_cases hc : cond r = true
    · rw [if_pos hc] at h
      cases ha : applyClauses cls r with
      | none =>
        rw [ha] at h
        exact Option.noConfusion h
      | some r2 =>
        rw [ha] at h
        cases hrest : applyToRows cls cond rest with
        | none =>
          rw [hrest] at h
          exact Option.noConfusion h
        | some l2 =>
          rw [hrest] at h
          injection h with h
          rw [← h, List.map_cons, if_pos hc, ← ih l2 hrest g hg, hg r r2 ha]
    · rw [if_neg hc] at h
      cases hrest : applyToRows cls cond rest with
      | none =>
        rw [hrest] at h
        exact Option.noConfusion h
      | some l2 =>
        rw [hrest] at h
        injection h with h
        rw [← h, List.map_cons, if_neg hc, ← ih l2 hrest g hg]

/-- The interpolated todos UPDATE of `update_task`, for quote-free
inputs: it succeeds exactly with the intended per-row update of the rows
matching the bound id. -/
theorem runUpdateTodos_ok (s : DBState) (id : Int) (nt nd : Option String)
    (np : Option Int) (u : Bool)
    (hnt : ∀ t, nt = some t → NoSq t) (hnd : ∀ d0, nd = some d0 → NoSq d0)
    (todos2 : List TodoRow)
    (h : runUpdateTodos s id nt nd np u = Except.ok todos2) :
    todos2 = s.todos.map (fun r =>
      if r.id = id then cleanRowUpdate nt (nd.bind parseDate) np u r else r) := by
  simp only [runUpdateTodos] at h
  by_cases hemp : (updateClauses nt nd np u).isEmpty = true
  · rw [if_pos hemp] at h
    injection h with h
    obtain ⟨h1, h2, h3, h4⟩ : nt = none ∧ nd = none ∧ np = none ∧ u = false := by
      cases nt <;> cases nd <;> cases np <;> cases u <;> simp_all [updateClauses]
    subst h1
    subst h2
    subst h3
    subst h4
    subst h
    have hone : ∀ r : TodoRow,
        (if r.id = id then
          cleanRowUpdate none (Option.bind none parseDate) none false r else r) = r := by
      intro r
      split <;> rfl
    symm
    rw [List.map_congr_left (fun r _ => hone r)]
    exact List.map_id s.todos
  · rw [if_neg hemp] at h
    have hne : ¬(itemsOf nt nd np u = []) := by
      intro h0
      have hfst := itemsOf_fst nt nd np u
      rw [h0] at hfst
      rw [← hfst] at hemp
      exact hemp rfl
    have hchain := parseClausesF_chain (itemsOf nt nd np u) ((" WHERE id = ?1").data)
      rfl (itemsOf_parse nt nd np u hnt hnd) 8 (itemsOf_len nt nd np u) hne
    rw [itemsOf_fst, itemsOf_snd] at hchain
    have hupd : ∀ it ∈ updateClauses nt nd np u, ∀ b,
        cleanSql (it.data ++ b) false = cleanSql b false := by
      rw [← itemsOf_fst nt nd np u]
      intro it hit b
      obtain ⟨pr, hpr, hpr2⟩ := List.mem_map.mp hit
      rw [← hpr2]
      exact itemsOf_clean nt nd np u hnt hnd pr hpr b
    have hdata : ("UPDATE todos SET " ++ joinComma (updateClauses nt nd np u) ++
          " WHERE id = ?1").data =
        ("UPDATE todos SET ").data ++
          ((joinComma (updateClauses nt nd np u)).data ++ (" WHERE id = ?1").data) := by
      simp [String.data_append, List.append_assoc]
    have hclean : cleanSql (("UPDATE todos SET " ++
        joinComma (updateClauses nt nd np u) ++ " WHERE id = ?1").data) false = true := by
      rw [hdata, cleanSql_flat (("UPDATE todos SET ").data) (by decide),
        cleanSql_join (updateClauses nt nd np u) hupd]
      decide
    have hstrip := stripComment_clean _ false hclean
    have hd2 : ("UPDATE todos SET " ++ joinComma (updateClauses nt nd np u) ++
          " WHERE id = ?1").data =
        (("UPDATE todos SET ").data ++ ((joinComma (updateClauses nt nd np u)).data ++
          (" WHERE id = ?").data)) ++ ['1'] := by
      rw [String.data_append, String.data_append,
        show (" WHERE id = ?1").data = (" WHERE id = ?").data ++ ['1'] from rfl]
      simp [List.append_assoc]
    have htrim : trimRightSpaces (("UPDATE todos SET " ++
          joinComma (updateClauses nt nd np u) ++ " WHERE id = ?1").data) =
        ("UPDATE todos SET " ++ joinComma (updateClauses nt nd np u) ++
          " WHERE id = ?1").data := by
      rw [hd2, trimRight_nonspace _ '1' (by decide)]
    simp only [runUpdateSql] at h
    rw [hstrip, htrim, hdata] at h
    simp only [dropToken_self, hchain] at h
    rw [if_pos (intendedCls_nodup nt nd np u)] at h
    rw [if_neg (show ¬(((" WHERE id = ?1").data : List Char) = []) from by decide)] at h
    simp only [dropToken_refl] at h
    cases happ : applyToRows (intendedCls nt nd np u) (fun r => r.id = id) s.todos with
    | none =>
      rw [happ] at h
      exact Except.noConfusion h
    | some l =>
      rw [happ] at h
      injection h with h
      subst h
      have hmap := applyToRows_some (intendedCls nt nd np u) _ s.todos l happ
        (cleanRowUpdate nt (nd.bind parseDate) np u)
        (fun r r2 hr => applyClauses_intended nt nd np u r r2 hr)
      rw [hmap]
      refine List.map_congr_left ?_
      intro r _
      by_cases hr : r.id = id
      · simp [hr]
      · simp [hr]

theorem addTaskCategory_basic (sx : DBState) (d : Int) (nc : Option String) :
    ∃ s2, addTaskCategory sx d nc = Except.ok s2 ∧
      s2.todos = sx.todos ∧ s2.tags = sx.tags ∧ s2.todo_tags = sx.todo_tags ∧
      s2.tag_seq = sx.tag_seq ∧ s2.todo_seq = sx.todo_seq ∧
      (∃ ext, s2.categories = sx.categories ++ ext) ∧
      (∃ pc, s2.todo_categories = sx.todo_categories ++ pc ∧ ∀ p ∈ pc, p.1 = d) := by
  cases nc with
  | none =>
    exact ⟨sx, rfl, rfl, rfl, rfl, rfl, rfl, ⟨[], by simp⟩, ⟨[], by simp, by simp⟩⟩
  | some c =>
    obtain ⟨cid, hcid⟩ := get_category_id_addCatState sx c
    obtain ⟨ext, hext⟩ := addCatState_categories_ext sx c
    refine ⟨{ addCatState sx c with
        todo_categories := (addCatState sx c).todo_categories ++ [(d, cid)] },
      ?_, ?_, ?_, ?_, ?_, ?_, ?_, ?_⟩
    · unfold addTaskCategory
      simp only [add_category_eq, hcid]
    · simp
    · simp
    · simp
    · simp
    · simp
    · exact ⟨ext, by simpa using hext⟩
    · exact ⟨[(d, cid)], by simp, by simp⟩

theorem add_task_spec (s : DBState) (t : Task) :
    ∀ s2, add_task s t = Except.ok s2 →
      s2.todos = s.todos ++ [⟨s.todo_seq, t.name, false, t.due_date, none, t.priority⟩] ∧
      (∃ ext, s2.categories = s.categories ++ ext) ∧
      (∃ ext, s2.tags = s.tags ++ ext) ∧
      (∃ pc, s2.todo_categories = s.todo_categories ++ pc ∧ ∀ p ∈ pc, p.1 = s.todo_seq) ∧
      (∃ pt, s2.todo_tags = s.todo_tags ++ pt ∧ ∀ p ∈ pt, p.1 = s.todo_seq) := by
  intro s2 h
  simp only [add_task] at h
  by_cases hany : s.todos.any (fun r => r.id = s.todo_seq)
  · rw [if_pos hany] at h
    cases h
  · rw [if_neg hany] at h
    obtain ⟨sB, hB, b1, b2, b3, b4, b5, ⟨extC, hextC⟩, ⟨pc, hpc, hpcall⟩⟩ :=
      addTaskCategory_basic
        { s with
          todos := s.todos ++ [⟨s.todo_seq, t.name, false, t.due_date, none, t.priority⟩],
          todo_seq := s.todo_seq + 1 } s.todo_seq t.category
    rw [hB] at h
    obtain ⟨a1, a2, a3, _, _, ⟨extT, hextT⟩, ⟨pairs, hp, hpall⟩⟩ :=
      attachTags_spec t.tags sB s.todo_seq s2 h
    refine ⟨by rw [a1, b1], ⟨extC, by rw [a2, hextC]⟩,
      ⟨extT, by rw [hextT, b2]⟩, ⟨pc, by rw [a3, hpc], hpcall⟩,
      ⟨pairs, by rw [hp, b3], hpall⟩⟩

theorem find?_id_stable {l ext : List NameRow} {i : Int} (h : ∃ c ∈ l, c.id = i) :
    (l ++ ext).find? (fun c => c.id = i) = l.find? (fun c => c.id = i) := by
  obtain ⟨c, hc, hcid⟩ := h
  have hsome : (l.find? (fun c => c.id = i)).isSome :=
    List.find?_isSome.mpr ⟨c, hc, by simp [hcid]⟩
  obtain ⟨c0, hc0⟩ := Option.isSome_iff_exists.mp hsome
  rw [List.find?_append, hc0]
  rfl

theorem get_task_category_stable (s s2 : DBState) (d : Int)
    (hj : s2.todo_categories.filter (fun p => p.1 = d) =
      s.todo_categories.filter (fun p => p.1 = d))
    (hext : ∃ ext, s2.categories = s.categories ++ ext)
    (hfk : ∀ p ∈ s.todo_categories, ∃ c ∈ s.categories, c.id = p.2) :
    get_task_category s2 d = get_task_category s d := by
  obtain ⟨ext, hext⟩ := hext
  unfold get_task_category
  rw [hj, hext]
  have hmaps : (s.todo_categories.filter (fun p => p.1 = d)).filterMap
      (fun p => ((s.categories ++ ext).find? (fun c => c.id = p.2)).map NameRow.name) =
      (s.todo_categories.filter (fun p => p.1 = d)).filterMap
      (fun p => (s.categories.find? (fun c => c.id = p.2)).map NameRow.name) := by
    apply List.filterMap_congr
    intro p hp
    rw [find?_id_stable (hfk p (List.mem_filter.mp hp).1)]
  rw [hmaps]

theorem get_task_tags_stable (s s2 : DBState) (d : Int)
    (hj : s2.todo_tags.filter (fun p => p.1 = d) =
      s.todo_tags.filter (fun p => p.1 = d))
    (hext : ∃ ext, s2.tags = s.tags ++ ext)
    (hfk : ∀ p ∈ s.todo_tags, ∃ c ∈ s.tags, c.id = p.2) :
    get_task_tags s2 d = get_task_tags s d := by
  obtain ⟨ext, hext⟩ := hext
  unfold get_task_tags
  rw [hj, hext]
  apply List.filterMap_congr
  intro p hp
  rw [find?_id_stable (hfk p (List.mem_filter.mp hp).1)]

theorem findName_then_findId {l : List NameRow} {n : String} {c0 : NameRow}
    (hnd : (l.map NameRow.id).Nodup) (hf : l.find? (fun c => c.name = n) = some c0) :
    l.find? (fun c => c.id = c0.id) = some c0 ∧ c0.name = n := by
  have hp := List.find?_some hf
  have hname : c0.name = n := of_decide_eq_true hp
  have hmem : c0 ∈ l := List.mem_of_find?_eq_some hf
  refine ⟨?_, hname⟩
  have hsome : (l.find? (fun c => c.id = c0.id)).isSome :=
    List.find?_isSome.mpr ⟨c0, hmem, by simp⟩
  obtain ⟨c1, hc1⟩ := Option.isSome_iff_exists.mp hsome
  have hc1mem : c1 ∈ l := List.mem_of_find?_eq_some hc1
  have hp1 := List.find?_some hc1
  have hc1id : c1.id = c0.id := of_decide_eq_true hp1
  rw [hc1, List.inj_on_of_nodup_map hnd hc1mem hmem hc1id]

theorem addTagState_inv (s : DBState) (n : String)
    (h1 : (s.tags.map NameRow.id).Nodup) (h2 : ∀ c ∈ s.tags, c.id < s.tag_seq) :
    ((addTagState s n).tags.map NameRow.id).Nodup ∧
    (∀ c ∈ (addTagState s n).tags, c.id < (addTagState s n).tag_seq) := by
  unfold addTagState
  split
  · exact ⟨h1, h2⟩
  · constructor
    · show ((s.tags ++ [(⟨s.tag_seq, n⟩ : NameRow)]).map NameRow.id).Nodup
      rw [List.map_append, List.map_singleton]
      rw [List.nodup_append]
      refine ⟨h1, List.nodup_singleton _, ?_⟩
      intro i hi him
      rw [List.mem_singleton] at him
      subst him
      obtain ⟨x, hx, hxid⟩ := List.mem_map.mp hi
      simp only at hxid
      exact absurd (hxid ▸ h2 x hx) (lt_irrefl _)
    · intro c hc
      show c.id < s.tag_seq + 1
      rcases List.mem_append.mp hc with h | h
      · exact lt_trans (h2 c h) (lt_add_one _)
      · rw [List.mem_singleton.mp h]
        exact lt_add_one _

theorem addCatState_inv (s : DBState) (n : String)
    (h1 : (s.categories.map NameRow.id).Nodup)
    (h2 : ∀ c ∈ s.categories, c.id < s.category_seq) :
    ((addCatState s n).categories.map NameRow.id).Nodup ∧
    (∀ c ∈ (addCatState s n).categories, c.id < (addCatState s n).category_seq) := by
  unfold addCatState
  split
  · exact ⟨h1, h2⟩
  · constructor
    · show ((s.categories ++ [(⟨s.category_seq, n⟩ : NameRow)]).map NameRow.id).Nodup
      rw [List.map_append, List.map_singleton]
      rw [List.nodup_append]
      refine ⟨h1, List.nodup_singleton _, ?_⟩
      intro i hi him
      rw [List.mem_singleton] at him
      subst him
      obtain ⟨x, hx, hxid⟩ := List.mem_map.mp hi
      simp only at hxid
      exact absurd (hxid ▸ h2 x hx) (lt_irrefl _)
    · intro c hc
      show c.id < s.category_seq + 1
      rcases List.mem_append.mp hc with h | h
      · exact lt_trans (h2 c h) (lt_add_one _)
      · rw [List.mem_singleton.mp h]
        exact lt_add_one _

theorem get_task_category_congr (x y : DBState) (d : Int)
    (h1 : x.todo_categories = y.todo_categories) (h2 : x.categories = y.categories) :
    get_task_category x d = get_task_category y d := by
  unfold get_task_category
  rw [h1, h2]

theorem get_task_tags_congr (x y : DBState) (d : Int)
    (h1 : x.todo_tags = y.todo_tags) (h2 : x.tags = y.tags) :
    get_task_tags x d = get_task_tags y d := by
  unfold get_task_tags
  rw [h1, h2]

theorem get_task_tags_nil (s : DBState) (d : Int)
    (hnone : ∀ p ∈ s.todo_tags, ¬(p.1 = d)) : get_task_tags s d = [] := by
  unfold get_task_tags
  have : s.todo_tags.filter (fun p => p.1 = d) = [] := by
    rw [List.filter_eq_nil_iff]
    intro p hp
    simpa using hnone p hp
  rw [this]
  rfl

theorem get_task_category_fresh (s : DBState) (d cid : Int) (c0 : NameRow)
    (hnone : ∀ p ∈ s.todo_categories, ¬(p.1 = d))
    (hfind : s.categories.find? (fun c => c.id = cid) = some c0) :
    get_task_category { s with todo_categories := s.todo_categories ++ [(d, cid)] } d =
      some c0.name := by
  unfold get_task_category
  show (((s.todo_categories ++ [(d, cid)]).filter (fun p => p.1 = d)).filterMap
    (fun p => (s.categories.find? (fun c => c.id = p.2)).map NameRow.name)).head? = _
  rw [List.filter_append]
  have h1 : s.todo_categories.filter (fun p => p.1 = d) = [] := by
    rw [List.filter_eq_nil_iff]
    intro p hp
    simpa using hnone p hp
  have h2 : ([((d : Int), cid)].filter (fun p => p.1 = d)) = [(d, cid)] := by
    simp
  rw [h1, h2, List.nil_append]
  simp [hfind]

theorem get_task_tags_append (s : DBState) (d i e : Int) (c0 : NameRow)
    (hfind : s.tags.find? (fun c => c.id = i) = some c0) :
    get_task_tags { s with todo_tags := s.todo_tags ++ [(d, i)] } e =
      get_task_tags s e ++ (if e = d then [c0.name] else []) := by
  unfold get_task_tags
  show ((s.todo_tags ++ [(d, i)]).filter (fun p => p.1 = e)).filterMap
      (fun p => (s.tags.find? (fun c => c.id = p.2)).map NameRow.name) = _
  rw [List.filter_append, List.filterMap_append]
  congr 1
  by_cases he : e = d
  · have h2 : ([((d : Int), i)].filter (fun p => p.1 = e)) = [(d, i)] := by
      simp [he]
    rw [h2, if_pos he]
    simp [hfind]
  · have h2 : ([((d : Int), i)].filter (fun p => p.1 = e)) = [] := by
      simp only [List.filter_cons, List.filter_nil]
      rw [if_neg (by simpa using fun hh => he hh.symm)]
    rw [h2, if_neg he]
    rfl

theorem attachTags_tags_of (names : List String) :
    ∀ s d, (s.tags.map NameRow.id).Nodup → (∀ c ∈ s.tags, c.id < s.tag_seq) →
      (∀ p ∈ s.todo_tags, ∃ c ∈ s.tags, c.id = p.2) →
      ∀ s2, attachTags s d names = Except.ok s2 →
        ∀ e, get_task_tags s2 e =
          get_task_tags s e ++ (if e = d then names else []) := by
  induction names with
  | nil =>
    intro s d _ _ _ s2 h e
    cases h
    split <;> simp
  | cons tag rest ih =>
    intro s d hnd hlt hfk s2 h e
    unfold attachTags at h
    obtain ⟨hndA, hltA⟩ := addTagState_inv s tag hnd hlt
    obtain ⟨cx, hcx, hcxn⟩ := mem_addTagState s tag
    have hsome : ((addTagState s tag).tags.find? (fun c => c.name = tag)).isSome :=
      List.find?_isSome.mpr ⟨cx, hcx, by simp [hcxn]⟩
    obtain ⟨c0, hc0⟩ := Option.isSome_iff_exists.mp hsome
    obtain ⟨hfindid, hc0name⟩ := findName_then_findId hndA hc0
    have htid : get_tag_id (addTagState s tag) tag = Except.ok c0.id := by
      unfold get_tag_id
      rw [hc0]
    simp only [add_tag_eq, htid] at h
    obtain ⟨ext0, hext0⟩ := addTagState_tags_ext s tag
    have hfkB : ∀ p ∈ ((addTagState s tag).todo_tags ++ [(d, c0.id)]),
        ∃ c ∈ (addTagState s tag).tags, c.id = p.2 := by
      intro p hp
      rcases List.mem_append.mp hp with hp | hp
      · rw [addTagState_todo_tags] at hp
        obtain ⟨c, hc, hcid⟩ := hfk p hp
        exact ⟨c, by rw [hext0]; exact List.mem_append_left _ hc, hcid⟩
      · rw [List.mem_singleton.mp hp]
        exact ⟨c0, List.mem_of_find?_eq_some hc0, rfl⟩
    have hstep := ih { addTagState s tag with
        todo_tags := (addTagState s tag).todo_tags ++ [(d, c0.id)] } d
      hndA hltA hfkB s2 h e
    rw [hstep, get_task_tags_append (addTagState s tag) d c0.id e c0 hfindid]
    have hsA : get_task_tags (addTagState s tag) e = get_task_tags s e :=
      get_task_tags_stable s (addTagState s tag) e
        (by rw [addTagState_todo_tags]) ⟨ext0, hext0⟩ hfk
    rw [hsA, hc0name]
    by_cases he : e = d
    · simp [he]
    · simp [he]

theorem addTaskCategory_resolves (sx : DBState) (d : Int) (c : String) (s2 : DBState)
    (hndC : (sx.categories.map NameRow.id).Nodup)
    (hltC : ∀ cc ∈ sx.categories, cc.id < sx.category_seq)
    (hfreshC : ∀ p ∈ sx.todo_categories, ¬(p.1 = d))
    (h : addTaskCategory sx d (some c) = Except.ok s2) :
    get_task_category s2 d = some c := by
  obtain ⟨hndA, _⟩ := addCatState_inv sx c hndC hltC
  obtain ⟨cx, hcx, hcxn⟩ := mem_addCatState sx c
  have hsome : ((addCatState sx c).categories.find? (fun cc => cc.name = c)).isSome :=
    List.find?_isSome.mpr ⟨cx, hcx, by simp [hcxn]⟩
  obtain ⟨c0, hc0⟩ := Option.isSome_iff_exists.mp hsome
  obtain ⟨hfindid, hc0name⟩ := findName_then_findId hndA hc0
  have hcid : get_category_id (addCatState sx c) c = Except.ok c0.id := by
    unfold get_category_id
    rw [hc0]
  unfold addTaskCategory at h
  simp only [add_category_eq, hcid] at h
  injection h with h
  subst h
  have hfresh2 : ∀ p ∈ (addCatState sx c).todo_categories, ¬(p.1 = d) := by
    rw [addCatState_todo_categories]
    exact hfreshC
  rw [get_task_category_fresh (addCatState sx c) d c0.id c0 hfresh2 hfindid, hc0name]

/-- C5: adding a task and then listing all tasks yields a task whose
name, due date, tags and priority equal those of the added task, and
whose category equals the added category when one was set. -/
theorem add_then_list_returns_task (s : DBState) (hwf : WF s) (t : Task) (s2 : DBState)
    (h : add_task s t = Except.ok s2) :
    ∃ tk ∈ get_tasks s2 none, tk.name = t.name ∧ tk.due_date = t.due_date ∧
      tk.tags = t.tags ∧ tk.priority = t.priority ∧
      (∀ c, t.category = some c → tk.category = some c) := by
  obtain ⟨⟨hndT, hltT⟩, ⟨hndC, hltC, hfkC⟩, ⟨hndG, hltG, hfkG⟩, hjc, hjt⟩ := hwf
  have hfreshC : ∀ p ∈ s.todo_categories, ¬(p.1 = s.todo_seq) := by
    intro p hp he
    obtain ⟨r, hr, hid⟩ := hjc p hp
    exact absurd ((hid.trans he) ▸ hltT r hr) (lt_irrefl _)
  have hfreshT : ∀ p ∈ s.todo_tags, ¬(p.1 = s.todo_seq) := by
    intro p hp he
    obtain ⟨r, hr, hid⟩ := hjt p hp
    exact absurd ((hid.trans he) ▸ hltT r hr) (lt_irrefl _)
  have hany : ¬(s.todos.any (fun r => r.id = s.todo_seq) = true) := by
    intro hx
    obtain ⟨r, hr, hid⟩ := List.any_eq_true.mp hx
    exact absurd ((of_decide_eq_true hid) ▸ hltT r hr) (lt_irrefl _)
  simp only [add_task] at h
  rw [if_neg hany] at h
  obtain ⟨sB, hB, b1, b2, b3, b4, b5, ⟨extC, hextC⟩, ⟨pc, hpc, hpcall⟩⟩ :=
    addTaskCategory_basic
      { s with
        todos := s.todos ++ [⟨s.todo_seq, t.name, false, t.due_date, none, t.priority⟩],
        todo_seq := s.todo_seq + 1 } s.todo_seq t.category
  rw [hB] at h
  obtain ⟨a1, a2, a3, _, _, ⟨extT, hextT⟩, ⟨pairs, hp, hpall⟩⟩ :=
    attachTags_spec t.tags sB s.todo_seq s2 h
  have htags := attachTags_tags_of t.tags sB s.todo_seq
    (by rw [b2]; exact hndG) (by rw [b2, b4]; exact hltG)
    (by rw [b3, b2]; exact hfkG) s2 h s.todo_seq
  have htags2 : get_task_tags s2 s.todo_seq = t.tags := by
    rw [htags, if_pos rfl,
      get_task_tags_congr sB s s.todo_seq (by rw [b3]) (by rw [b2]),
      get_task_tags_nil s s.todo_seq hfreshT, List.nil_append]
  have hcat : ∀ c, t.category = some c → get_task_category s2 s.todo_seq = some c := by
    intro c hc
    rw [hc] at hB
    have hres := addTaskCategory_resolves
      { s with
        todos := s.todos ++ [⟨s.todo_seq, t.name, false, t.due_date, none, t.priority⟩],
        todo_seq := s.todo_seq + 1 } s.todo_seq c sB hndC hltC hfreshC hB
    rw [get_task_category_congr s2 sB s.todo_seq a3 a2]
    exact hres
  refine ⟨rowToTask s2 ⟨s.todo_seq, t.name, false, t.due_date, none, t.priority⟩,
    ?_, rfl, rfl, htags2, rfl, hcat⟩
  show rowToTask s2 _ ∈ (s2.todos).map (rowToTask s2)
  apply List.mem_map_of_mem
  rw [a1, b1]
  exact List.mem_append_right _ (List.mem_singleton.mpr rfl)

/-- Concrete run of the C5 theorem: adding the sample task to a fresh
store and listing returns it with all its fields. -/
theorem add_then_list_returns_task_witness :
    ∃ tk ∈ get_tasks oneTaskState none, tk.name = "Test Task" ∧
      tk.due_date = some 20088 ∧ tk.tags = ["test"] ∧ tk.priority = 1 ∧
      (∀ c, sampleTask.category = some c → tk.category = some c) :=
  add_then_list_returns_task Database_new (by decide) sampleTask oneTaskState (by decide)

/-- C2 amended: for a task id present in the store, `mark_task_done`
sets the row's done flag and sets completion_date to the current date;
and `update_task` with mark_undone sets done to false and
completion_date to NULL provided the supplied task and due-date strings
are quote-free - with a single quote in them the interpolated UPDATE can
be injected so that the done/completion_date assignments are commented
out while the call still returns Ok. -/
theorem mark_done_sets_update_undone_clears (s : DBState) (id today : Int)
    (hpresent : ∃ r ∈ s.todos, r.id = id) :
    ((∃ r ∈ (mark_task_done s id today).todos, r.id = id) ∧
      (∀ r ∈ (mark_task_done s id today).todos, r.id = id →
        r.done = true ∧ r.completion_date = some today)) ∧
    (∀ nt nd nc ntg np s2,
      (∀ t, nt = some t → NoSq t) →
      (∀ d0, nd = some d0 → NoSq d0) →
      update_task s id nt nd nc ntg np true = Except.ok s2 →
      ((∃ r ∈ s2.todos, r.id = id) ∧
        (∀ r ∈ s2.todos, r.id = id →
          r.done = false ∧ r.completion_date = none))) := by
  obtain ⟨r0, hr0, hid⟩ := hpresent
  constructor
  · constructor
    · refine ⟨{ r0 with done := true, completion_date := some today }, ?_, hid⟩
      simp only [mark_task_done]
      exact List.mem_map.mpr ⟨r0, hr0, by rw [if_pos hid]⟩
    · intro r hr hrid
      simp only [mark_task_done] at hr
      obtain ⟨r1, hr1, heq⟩ := List.mem_map.mp hr
      by_cases hc : r1.id = id
      · rw [← heq, if_pos hc]
        exact ⟨rfl, rfl⟩
      · rw [← heq, if_neg hc] at hrid
        exact absurd hrid hc
  · intro nt nd nc ntg np s2 hnt hnd h
    obtain ⟨⟨todos2, hrun, htodos⟩, _⟩ := update_task_spec s id nt nd nc ntg np true s2 h
    have hok := runUpdateTodos_ok s id nt nd np true hnt hnd todos2 hrun
    rw [htodos, hok]
    constructor
    · refine ⟨cleanRowUpdate nt (nd.bind parseDate) np true r0, ?_, ?_⟩
      · exact List.mem_map.mpr ⟨r0, hr0, by rw [if_pos hid]⟩
      · rw [cleanRowUpdate_id]
        exact hid
    · intro r hr hrid
      obtain ⟨r1, hr1, heq⟩ := List.mem_map.mp hr
      by_cases hc : r1.id = id
      · rw [← heq, if_pos hc]
        exact cleanRowUpdate_undone nt (nd.bind parseDate) np r1
      · rw [← heq, if_neg hc] at hrid
        exact absurd hrid hc

/-- Concrete run of the C2 theorem: marking task 1 done on day 5 in the
one-task state produces the expected row. -/
theorem mark_done_sets_update_undone_clears_witness :
    (⟨1, "Test Task", true, some 20088, some 5, 1⟩ : TodoRow).done = true ∧
    (⟨1, "Test Task", true, some 20088, some 5, 1⟩ : TodoRow).completion_date = some 5 :=
  (mark_done_sets_update_undone_clears oneTaskState 1 5
      ⟨⟨1, "Test Task", false, some 20088, none, 1⟩, by decide, rfl⟩).1.2
    ⟨1, "Test Task", true, some 20088, some 5, 1⟩ (by decide) rfl

/-- C2 counterexample: a single quote in the new task name turns the
rest of the interpolated UPDATE into a line comment, so the done = 0 and
completion_date = NULL assignments of mark_undone are dropped; the call
still returns Ok but the row stays done with its completion date. -/
theorem update_injection_skips_undone :
    update_task oneDoneState 1 (some ("x" ++ sqStr ++ " WHERE id = ?1 --"))
        none none [] none true =
      Except.ok { oneDoneState with todos := [⟨1, "x", true, some 20088, some 5, 1⟩] } ∧
    ∀ r ∈ ({ oneDoneState with
        todos := [⟨1, "x", true, some 20088, some 5, 1⟩] } : DBState).todos,
      r.id = 1 → r.done = true ∧ r.completion_date = some 5 :=
  ⟨by decide, by decide⟩

/-- C3 amended: an update_task call supplying only a subset of the
optional new values leaves every non-supplied field of the target row
unchanged and every other row (fields and category/tag associations)
fully unchanged, provided the supplied task and due-date strings are
quote-free - with a single quote in them the interpolated UPDATE can be
injected to change fields that were not supplied. -/
theorem update_subset_frame (s : DBState) (hwf : WF s) (id : Int)
    (nt : Option String) (nd : Option String) (nc : Option String) (ntg : List String)
    (np : Option Int) (u : Bool) (s2 : DBState)
    (hnt : ∀ t0, nt = some t0 → NoSq t0)
    (hnd : ∀ d0, nd = some d0 → NoSq d0)
    (h : update_task s id nt nd nc ntg np u = Except.ok s2) :
    (∀ r ∈ s.todos, ¬(r.id = id) →
      (r ∈ s2.todos ∧ get_task_category s2 r.id = get_task_category s r.id ∧
        get_task_tags s2 r.id = get_task_tags s r.id)) ∧
    (∀ r ∈ s.todos, r.id = id →
      ∃ r2 ∈ s2.todos, r2.id = id ∧
        (nt = none → r2.task = r.task) ∧
        (nd = none → r2.due_date = r.due_date) ∧
        (np = none → r2.priority = r.priority) ∧
        (u = false → r2.done = r.done ∧ r2.completion_date = r.completion_date) ∧
        (nc = none → get_task_category s2 id = get_task_category s id) ∧
        (ntg = [] → get_task_tags s2 id = get_task_tags s id)) := by
  obtain ⟨_, ⟨_, _, hfkc⟩, ⟨_, _, hfkt⟩, _⟩ := hwf
  obtain ⟨⟨todos2, hrun, htodos⟩, hcats, htags, hncnone, hntgnil, hcfil, htfil⟩ :=
    update_task_spec s id nt nd nc ntg np u s2 h
  have hok := runUpdateTodos_ok s id nt nd np u hnt hnd todos2 hrun
  constructor
  · intro r hr hrid
    refine ⟨?_, ?_, ?_⟩
    · rw [htodos, hok]
      have hfix : (if r.id = id then
          cleanRowUpdate nt (nd.bind parseDate) np u r else r) = r := if_neg hrid
      rw [← hfix]
      exact List.mem_map.mpr ⟨r, hr, rfl⟩
    · exact get_task_category_stable s s2 r.id (hcfil r.id hrid) hcats hfkc
    · exact get_task_tags_stable s s2 r.id (htfil r.id hrid) htags hfkt
  · intro r hr hrid
    have hcat : nc = none → get_task_category s2 id = get_task_category s id := by
      intro hnc
      exact get_task_category_stable s s2 id (by rw [hncnone hnc]) hcats hfkc
    have htag : ntg = [] → get_task_tags s2 id = get_task_tags s id := by
      intro hntg
      exact get_task_tags_stable s s2 id (by rw [hntgnil hntg]) htags hfkt
    rw [htodos, hok]
    refine ⟨cleanRowUpdate nt (nd.bind parseDate) np u r,
      List.mem_map.mpr ⟨r, hr, by rw [if_pos hrid]⟩, ?_, ?_, ?_, ?_, ?_, hcat, htag⟩
    · rw [cleanRowUpdate_id]
      exact hrid
    · intro hnt0
      subst hnt0
      exact (cleanRowUpdate_frame none (nd.bind parseDate) np u r).1 rfl
    · intro hnd0
      subst hnd0
      exact (cleanRowUpdate_frame nt (Option.bind none parseDate) np u r).2.1 rfl
    · intro hnp
      subst hnp
      exact (cleanRowUpdate_frame nt (nd.bind parseDate) none u r).2.2.1 rfl
    · intro hu
      subst hu
      exact (cleanRowUpdate_frame nt (nd.bind parseDate) np false r).2.2.2 rfl

/-- Concrete run of the C3 theorem: updating only the task name of task
1 leaves due date, priority, done, completion date, category and tags
untouched. -/
theorem update_subset_frame_witness :
    ∃ r2 ∈ c3Result.todos, r2.id = 1 ∧
      ((some "Updated" : Option String) = none → r2.task = "Test Task") ∧
      ((none : Option String) = none → r2.due_date = some 20088) ∧
      ((none : Option Int) = none → r2.priority = 1) ∧
      (false = false → r2.done = false ∧ r2.completion_date = none) ∧
      ((none : Option String) = none →
        get_task_category c3Result 1 = get_task_category oneTaskState 1) ∧
      (([] : List String) = [] →
        get_task_tags c3Result 1 = get_task_tags oneTaskState 1) :=
  (update_subset_frame oneTaskState (by decide) 1 (some "Updated") none none [] none false
      c3Result
      (fun t0 ht0 => by
        injection ht0 with ht0
        subst ht0
        decide)
      (fun d0 hd0 => Option.noConfusion hd0)
      (by decide)).2
    ⟨1, "Test Task", false, some 20088, none, 1⟩ (by decide) rfl

/-- C3 counterexample: a single quote in the new task name smuggles an
extra `priority = 99` SET clause into the interpolated UPDATE, so a call
that supplied no new priority still changes the target row's priority
and returns Ok. -/
theorem update_injection_changes_unsupplied :
    update_task oneTaskState 1
        (some ("x" ++ sqStr ++ ", priority = 99 WHERE id = ?1 --"))
        none none [] none false =
      Except.ok { oneTaskState with todos := [⟨1, "x", false, some 20088, none, 99⟩] } ∧
    ∀ r ∈ ({ oneTaskState with
        todos := [⟨1, "x", false, some 20088, none, 99⟩] } : DBState).todos,
      r.id = 1 → ¬(r.priority = 1) :=
  ⟨by decide, by decide⟩

theorem rowInv_of_proj {a b : TodoRow} (h : projRow a = projRow b) :
    RowInv b → RowInv a := by
  unfold projRow at h
  rw [Prod.ext_iff] at h
  obtain ⟨_, hrest⟩ := h
  rw [Prod.ext_iff] at hrest
  obtain ⟨hdone, hrest⟩ := hrest
  rw [Prod.ext_iff] at hrest
  obtain ⟨_, hrest⟩ := hrest
  rw [Prod.ext_iff] at hrest
  obtain ⟨hcomp, _⟩ := hrest
  unfold RowInv
  intro hb
  simp only at hdone hcomp
  rw [hdone, hcomp]
  exact hb

/-- C1 amended: add_task, mark_task_done and update_task (with or
without mark_undone, provided the supplied task and due-date strings are
quote-free) preserve the completion-date/done equivalence, and an import
(any format, any strategy) preserves it provided every imported row
satisfies it; an import of a file containing a row that violates the
equivalence can break it, and so can an update_task whose task string
carries a single quote. -/
theorem completion_invariant_preservation (s : DBState) (hinv : Inv s) :
    (∀ t s2, add_task s t = Except.ok s2 → Inv s2) ∧
    (∀ id today, Inv (mark_task_done s id today)) ∧
    (∀ id nt nd nc ntg np u s2,
      (∀ t, nt = some t → NoSq t) →
      (∀ d0, nd = some d0 → NoSq d0) →
      update_task s id nt nd nc ntg np u = Except.ok s2 → Inv s2) ∧
    (∀ fmt file strat s2, (∀ q ∈ file, RowInv q) →
      import_dispatch s fmt file strat = Except.ok s2 → Inv s2) := by
  refine ⟨?_, ?_, ?_, ?_⟩
  · intro t s2 h r hr
    obtain ⟨h1, _⟩ := add_task_spec s t s2 h
    rw [h1] at hr
    rcases List.mem_append.mp hr with h | h
    · exact hinv r h
    · rw [List.mem_singleton.mp h]
      rfl
  · intro id today r hr
    simp only [mark_task_done] at hr
    obtain ⟨r0, hr0, heq⟩ := List.mem_map.mp hr
    by_cases hc : r0.id = id
    · rw [← heq, if_pos hc]
      rfl
    · rw [← heq, if_neg hc]
      exact hinv r0 hr0
  · intro id nt nd nc ntg np u s2 hnt hnd h r hr
    obtain ⟨⟨todos2, hrun, htodos⟩, _⟩ := update_task_spec s id nt nd nc ntg np u s2 h
    have hok := runUpdateTodos_ok s id nt nd np u hnt hnd todos2 hrun
    rw [htodos, hok] at hr
    obtain ⟨r0, hr0, heq⟩ := List.mem_map.mp hr
    by_cases hc : r0.id = id
    · rw [← heq, if_pos hc]
      cases u with
      | true =>
        obtain ⟨hd, hcp⟩ := cleanRowUpdate_undone nt (nd.bind parseDate) np r0
        unfold RowInv
        rw [hd, hcp]
        rfl
      | false =>
        obtain ⟨hd, hcp⟩ :=
          (cleanRowUpdate_frame nt (nd.bind parseDate) np false r0).2.2.2 rfl
        unfold RowInv
        rw [hd, hcp]
        exact hinv r0 hr0
    · rw [← heq, if_neg hc]
      exact hinv r0 hr0
  · intro fmt file strat s2 hfile h r hr
    have hjson : ∀ s2, import_from_json s file strat = Except.ok s2 →
        ∀ r ∈ s2.todos, RowInv r := by
      intro s2 h r hr
      unfold import_from_json at h
      by_cases h1 : strat = "skip"
      · rw [if_pos h1] at h
        injection h with h
        subst h
        rcases insertOrIgnoreRows_mem file s.todos r hr with hm | hm
        · exact hinv r hm
        · exact hfile r hm
      · rw [if_neg h1] at h
        by_cases h2 : strat = "remove"
        · rw [if_pos h2] at h
          obtain ⟨_, _, _, _, _, ⟨ext, hext, hproj⟩⟩ := copyTodos_spec file s s2 h
          rw [hext] at hr
          rcases List.mem_append.mp hr with hm | hm
          · exact hinv r hm
          · obtain ⟨q, hq, hpq⟩ := hproj r hm
            exact rowInv_of_proj hpq (hfile q hq)
        · rw [if_neg h2] at h
          by_cases h3 : strat = "upsert"
          · rw [if_pos h3] at h
            injection h with h
            subst h
            rcases insertOrReplaceRows_mem file s.todos r hr with hm | hm
            · exact hinv r hm
            · exact hfile r hm
          · rw [if_neg h3] at h
            cases h
    by_cases hf : fmt = "json" ∨ fmt = "parquet" ∨ fmt = "xlsx" ∨ fmt = "csv"
    · rw [import_dispatch_supported s file fmt hf] at h
      exact hjson s2 h r hr
    · push_neg at hf
      obtain ⟨hf1, hf2, hf3, hf4⟩ := hf
      unfold import_dispatch at h
      rw [if_neg hf1, if_neg hf2, if_neg hf3, if_neg hf4] at h
      injection h with h
      subst h
      exact hinv r hr

/-- Concrete run of the C1 amended theorem: marking a task done in the
one-task state keeps the invariant. -/
theorem completion_invariant_preservation_witness :
    Inv (mark_task_done oneTaskState 1 5) :=
  (completion_invariant_preservation oneTaskState (by decide)).2.1 1 5

/-- C1 counterexample: a single quote in the new task name smuggles a
`done = 1` SET clause into the interpolated UPDATE without touching
completion_date, so an update_task call returns Ok on a state satisfying
the completion-date/done equivalence and leaves a state violating it. -/
theorem update_injection_breaks_completion_invariant :
    update_task oneTaskState 1
        (some ("x" ++ sqStr ++ ", done = 1 WHERE id = ?1 --"))
        none none [] none false =
      Except.ok { oneTaskState with todos := [⟨1, "x", true, some 20088, none, 1⟩] } ∧
    Inv oneTaskState ∧
    ¬(Inv { oneTaskState with todos := [⟨1, "x", true, some 20088, none, 1⟩] }) :=
  ⟨by decide, by decide, by decide⟩

end Yawmak
